import Mathlib

/-!
# Verification of the nefertari elasticsearch indexing/search client

The repository ships the tests of its elasticsearch client
(`tests/test_elasticsearch.py`) together with a CLI caller
(`nefertari/scripts/es.py`), while the client module itself
(`nefertari/elasticsearch.py`) is not among the sources.  The definitions
below are therefore a shallow embedding modelled from the repository's
specification of that module (query-string translation, transport-failure
translation, chunked bulk orchestration, missing-document reconciliation
and result wrapping), with the shipped tests pinning concrete behaviour.

Python values are embedded as an inductive of scalars and flat lists,
Python dicts as order-preserving association lists, raised exceptions as
explicit error results, and network calls as oracle parameters describing
the search engine's response.
-/

set_option maxHeartbeats 1000000

namespace Nefertari

/-- Scalar Python values appearing in documents and query parameters. -/
inductive PyScalar where
  | pstr : String → PyScalar
  | pint : Int → PyScalar
  | pbool : Bool → PyScalar
  | pnone : PyScalar
deriving DecidableEq, Repr

/-- Document/parameter values: a scalar or a flat list of scalars
(the shapes exercised by the client; the spec assumes a flat document
shape). -/
inductive PyVal where
  | scalar : PyScalar → PyVal
  | plist : List PyScalar → PyVal
deriving DecidableEq, Repr

/-- A Python dict with order-preserving iteration: an association list
from field name to value.  The spec requires treating parameter mappings
as order-preserving. -/
abbrev Doc := List (String × PyVal)

/-- Python `d[k]` / `d.get(k)`: first binding of the key, if any. -/
def dlookup : Doc → String → Option PyVal
  | [], _ => none
  | p :: rest, key => if p.1 = key then some p.2 else dlookup rest key

/-- Python `d[k] = v`: replace the value in place if the key is bound,
otherwise append the new binding at the end (dict insertion order). -/
def dinsert (d : Doc) (k : String) (v : PyVal) : Doc :=
  if k ∈ d.map Prod.fst then
    d.map (fun p => if p.1 = k then (k, v) else p)
  else d ++ [(k, v)]

/-- Python `str()` of a scalar. -/
def pyScalarStr : PyScalar → String
  | .pstr s => s
  | .pint n => toString n
  | .pbool b => cond b "True" "False"
  | .pnone => "None"

/-- Python `'%s' % v` rendering of a value (the scalar cases mirror
Python exactly; lists are rendered element-wise, which the client only
ever does through `build_terms`). -/
def pyValStr : PyVal → String
  | .scalar s => pyScalarStr s
  | .plist xs => "[" ++ String.intercalate ", " (xs.map pyScalarStr) ++ "]"

/-! ## Character-list string helpers (Python `str` methods) -/

/-- Python `s.split(sep)` helper: accumulate the current piece (reversed). -/
def pySplitAux (sep : Char) : List Char → List Char → List (List Char)
  | [], acc => [acc.reverse]
  | c :: rest, acc =>
    if c = sep then acc.reverse :: pySplitAux sep rest []
    else pySplitAux sep rest (c :: acc)

/-- Python `s.split(sep)` on a single-character separator; in particular
`''.split(',') = ['']`. -/
def pySplit (sep : Char) (cs : List Char) : List (List Char) :=
  pySplitAux sep cs []

/-- Python `s.strip()`: drop whitespace from both ends. -/
def pyStrip (cs : List Char) : List Char :=
  ((cs.dropWhile Char.isWhitespace).reverse.dropWhile Char.isWhitespace).reverse

/-- Python `'sep'.join(pieces)` at the character-list level. -/
def joinSep (sep : List Char) : List (List Char) → List Char
  | [] => []
  | [x] => x
  | x :: xs => x ++ sep ++ joinSep sep xs

/-- Python `s.lower()` (ASCII lowering, as used for doc-type labels). -/
def pyLower (s : String) : String := ⟨s.data.map Char.toLower⟩

/-- Whether a character list begins with the given pattern. -/
def startsWithCh : List Char → List Char → Bool
  | _, [] => true
  | [], _ :: _ => false
  | a :: as, b :: bs => if a = b then startsWithCh as bs else false

/-! ## Query String Translator -/

/-- Modelled from the spec: one sort item of `apply_sort` — a stripped
name optionally prefixed with `-` (descending) or `+` (ascending,
default) becomes a `name:asc`/`name:desc` pair. -/
def sortItem (cs : List Char) : List Char :=
  match cs with
  | [] => [':', 'a', 's', 'c']
  | c :: rest =>
    if c = '-' then rest ++ [':', 'd', 'e', 's', 'c']
    else if c = '+' then rest ++ [':', 'a', 's', 'c']
    else (c :: rest) ++ [':', 'a', 's', 'c']

/-- Modelled from the spec: `apply_sort(spec)` of the missing
`nefertari/elasticsearch.py` — the input is a comma-separated list of
field names each optionally prefixed with `+`/`-`, whitespace around
names stripped; output is comma-separated `field:asc|desc` pairs in
input order, empty input yielding empty output. -/
def apply_sort (spec : String) : String :=
  if spec = "" then ""
  else ⟨joinSep [','] ((pySplit ',' spec.data).map (fun p => sortItem (pyStrip p)))⟩

/-- A sort-spec item of the input grammar of `apply_sort`: a field name
with an optional direction prefix — `some true` renders as `-name`,
`some false` as `+name`, `none` as the bare name. -/
def renderSortItem (it : Option Bool × List Char) : List Char :=
  match it.1 with
  | none => it.2
  | some false => '+' :: it.2
  | some true => '-' :: it.2

/-- The canonical `field:asc|desc` pair of a sort-spec item. -/
def canonSortPair (it : Option Bool × List Char) : List Char :=
  it.2 ++ (if it.1 = some true then [':', 'd', 'e', 's', 'c'] else [':', 'a', 's', 'c'])

/-- Modelled from the spec: `build_terms(name, values, operator='OR')` —
renders `name:v1 OP name:v2 OP ...` preserving order. -/
def build_terms (name : String) (values : List PyScalar) (operator : String) : String :=
  ⟨joinSep (' ' :: (operator.data ++ [' ']))
    (values.map (fun v => (name ++ ":" ++ pyScalarStr v).data))⟩

/-- The clause separator derived from an operator: `" OP "`. -/
def sepChars (operator : String) : List Char :=
  ' ' :: (operator.data ++ [' '])

/-- Whether a key is reserved: it begins and ends with a double
underscore (such keys are excluded from filter translation). -/
def isDunder (k : String) : Bool :=
  startsWithCh k.data ['_', '_'] && startsWithCh k.data.reverse ['_', '_']

/-- Modelled from the spec: the term clauses of `build_qs` — keys whose
value is the sentinel `'_all'` and reserved dunder keys are excluded;
a list value renders as an inner OR-joined group, a scalar as
`field:value`; clause order is the mapping's iteration order. -/
def qsClauses (params : Doc) : List (List Char) :=
  params.filterMap (fun p =>
    if p.2 = PyVal.scalar (PyScalar.pstr "_all") then none
    else if isDunder p.1 then none
    else match p.2 with
      | PyVal.plist xs => some (build_terms p.1 xs "OR").data
      | v => some (p.1 ++ ":" ++ pyValStr v).data)

/-- The non-empty clauses of `build_qs` (empty renderings, such as a
term over an empty list of values, are dropped before joining). -/
def nonEmptyClauses (params : Doc) : List (List Char) :=
  (qsClauses params).filter (fun c => !c.isEmpty)

/-- Drop a leading separator from a character list if it is present. -/
def dropLeadingSep (sep cs : List Char) : List Char :=
  if cs.take sep.length = sep then cs.drop sep.length else cs

/-- Modelled from the spec: `build_qs(params, _raw_terms='',
operator='AND')` — joins the rendered clauses with ` operator ` and
appends `raw_terms` verbatim (callers pass the separator inside
`raw_terms`, as the shipped test `test_build_raw_terms` pins with
`_raw_terms=' AND qoo:1'`); when no clauses exist, the raw terms appear
with the leading separator trimmed. -/
def build_qs (params : Doc) (raw_terms : String) (operator : String) : String :=
  let joined := joinSep (sepChars operator) (nonEmptyClauses params) ++ raw_terms.data
  if (nonEmptyClauses params).isEmpty then ⟨dropLeadingSep (sepChars operator) joined⟩
  else ⟨joined⟩

/-! ## Transport Adapter -/

/-- The status attached to a transport failure: the engine's HTTP-like
status code, or the library's literal `'N/A'` placeholder. -/
inductive ESStat where
  | na
  | code : Nat → ESStat
deriving DecidableEq, Repr

/-- The outcome of the underlying HTTP transport for one request. -/
inductive TransportCall (α : Type) where
  | success : α → TransportCall α
  | failure : ESStat → String → TransportCall α
deriving DecidableEq, Repr

/-- What `ESHttpConnection.perform_request` surfaces to its caller. -/
inductive PerformResult (α : Type) where
  | ok : α → PerformResult α
  | indexNotFound
  | badRequest : String → PerformResult α
deriving DecidableEq, Repr

/-- Modelled from the spec: `ESHttpConnection.perform_request` of the
missing `nefertari/elasticsearch.py` — a successful transport response
is returned unchanged; a transport failure whose status is the engine's
404 raises the distinguished `IndexNotFoundException`; any other
transport failure raises `JHTTPBadRequest` carrying the error detail. -/
def perform_request (c : TransportCall α) : PerformResult α :=
  match c with
  | .success r => .ok r
  | .failure st detail =>
    if st = ESStat.code 404 then .indexNotFound else .badRequest detail

/-! ## Index Client: construction and bulk preparation -/

/-- An Index Client instance: target index name, default doc-type label
(the lower-cased source type name) and default chunk size. -/
structure ESClient where
  index_name : String
  doc_type : String
  chunk_size : Nat
deriving DecidableEq, Repr

/-- Modelled from the spec: `ES.src2type` — the engine's document-type
label is the lower-cased source type name. -/
def src2type (s : String) : String := pyLower s

/-- A bulk document given to `prep_bulk_documents`: a mapping, or a
non-mapping value (which must be rejected with a type error). -/
inductive PyObj where
  | pdict : Doc → PyObj
  | pstr : String → PyObj
  | pint : Int → PyObj
deriving DecidableEq, Repr

/-- Python's type name of a `PyObj`, as spliced into the error text. -/
def typeName : PyObj → String
  | .pdict _ => "dict"
  | .pstr _ => "str"
  | .pint _ => "int"

/-- The action envelope of one bulk pair: the outer dict key (the action
name), the inner `action`/`_type`/`_id`/`_index` entries, and the
`_timestamp` passthrough the bulk flattener may add alongside the key. -/
structure Envelope where
  key : String
  action : String
  envType : String
  envId : Option PyVal
  envIndex : String
  tstamp : Option PyVal
deriving DecidableEq, Repr

/-- Modelled from the spec: preparation of a single bulk document —
a mapping yields the envelope (doc-type from the document's own `_type`
field lower-cased when it is a string, else the client's default
`doc_type`; `_id` from the document's `id` field; `_index` the client's
index) paired with the unchanged payload; a non-mapping input fails with
the `ValueError` text the tests pin. -/
def prep_one (client : ESClient) (action : String) (doc : PyObj) :
    Except String (Envelope × Doc) :=
  match doc with
  | .pdict fields =>
    let t := match dlookup fields "_type" with
      | some (.scalar (.pstr s)) => src2type s
      | _ => client.doc_type
    .ok ({ key := action, action := action, envType := t,
           envId := dlookup fields "id", envIndex := client.index_name,
           tstamp := none }, fields)
  | other =>
    .error ("Document type must be `dict` not a `" ++ typeName other ++ "`")

/-- Modelled from the spec: `prep_bulk_documents(action, documents)` —
prepare each document in order, failing on the first non-mapping one. -/
def prep_bulk_documents (client : ESClient) (action : String) :
    List PyObj → Except String (List (Envelope × Doc))
  | [] => .ok []
  | d :: ds =>
    match prep_one client action d, prep_bulk_documents client action ds with
    | .ok p, .ok ps => .ok (p :: ps)
    | .error e, _ => .error e
    | .ok _, .error e => .error e

/-! ## Chunked Batch Executor -/

/-- Fuel-indexed chunk splitter (fuel bounds the number of chunks; one
unit per produced chunk suffices since every chunk is non-empty). -/
def process_chunks_fuel (fuel : Nat) (l : List α) (n : Nat) : List (List α) :=
  match fuel, l with
  | 0, _ => []
  | _, [] => []
  | f + 1, x :: xs =>
    if n = 0 then []
    else (x :: xs).take n :: process_chunks_fuel f ((x :: xs).drop n) n

/-- Modelled from the spec: `ES.process_chunks(documents, operation,
chunk_size)` — split `documents` into consecutive slices of at most
`chunk_size`; the returned list of slices is the sequence of arguments
`operation` is invoked with, in order.  (The source loops forever on a
zero chunk size; the model returns no chunks there, and every claim
constrains the chunk size to be positive.) -/
def process_chunks (l : List α) (n : Nat) : List (List α) :=
  process_chunks_fuel l.length l n

/-! ## Bulk pipeline -/

/-- One entry of the flattened bulk body: an action envelope or a
document payload. -/
inductive BulkEntry where
  | env : Envelope → BulkEntry
  | payload : Doc → BulkEntry
deriving DecidableEq, Repr

/-- Whether a bulk-body entry is a document payload. -/
def isPayloadEntry : BulkEntry → Bool
  | .payload _ => true
  | .env _ => false

/-- Modelled from the spec: the `_timestamp` passthrough — when the
payload carries a `timestamp` field, the envelope gains a `_timestamp`
entry with that value. -/
def stampEnv (e : Envelope) (d : Doc) : Envelope :=
  match dlookup d "timestamp" with
  | some ts => { e with tstamp := some ts }
  | none => e

/-- Modelled from the spec: the `_bulk` flattening of prepared
(envelope, document) pairs — a delete pair contributes only its
envelope, unchanged; any other pair contributes its envelope (with the
timestamp passthrough applied) followed by the document payload. -/
def flatten : List (Envelope × Doc) → List BulkEntry
  | [] => []
  | p :: rest =>
    (if p.1.key = "delete" then [BulkEntry.env p.1]
     else [BulkEntry.env (stampEnv p.1 p.2), BulkEntry.payload p.2]) ++ flatten rest

/-- Modelled from the spec: the chunk size used on the flattened
entries — doubled for non-delete actions so that the document count per
physical chunk matches the requested chunk size (1:1 expansion for
delete, 2:1 otherwise). -/
def bulk_chunk_size (action : String) (cs : Nat) : Nat :=
  if action = "delete" then cs else cs * 2

/-- Modelled from the spec: the tail of `_bulk` after preparation — no
chunk is processed when preparation produced no pairs; otherwise the
flattened entries are chunked, each chunk being one bulk request. -/
def bulk_from_pairs (action : String) (cs : Nat) (pairs : List (Envelope × Doc)) :
    List (List BulkEntry) :=
  if pairs = [] then []
  else process_chunks (flatten pairs) (bulk_chunk_size action cs)

/-- Modelled from the spec: `ES._bulk(action, documents, chunk_size)` —
a no-op on empty input; otherwise documents are prepared (a preparation
failure propagates, so no bulk request is issued) and the flattened
pairs are chunked into bulk requests.  The result lists the submitted
bulk request bodies; the chunk size defaults to the client's. -/
def ES_bulk (client : ESClient) (action : String) (docs : List PyObj)
    (chunk_size : Option Nat) : Except String (List (List BulkEntry)) :=
  let cs := chunk_size.getD client.chunk_size
  if docs = [] then .ok []
  else
    match prep_bulk_documents client action docs with
    | .error e => .error e
    | .ok pairs => .ok (bulk_from_pairs action cs pairs)

/-! ## Missing-document reconciliation -/

/-- One entry of the multi-get existence check: the engine-reported
string id and the optional `found` marker. -/
structure MGetIdEntry where
  mid : String
  found : Option Bool
deriving DecidableEq, Repr

/-- The engine's answer to the multi-get existence check. -/
inductive MGetIds where
  | indexNotFound
  | ok : List MGetIdEntry → MGetIds
deriving DecidableEq, Repr

/-- Python `str(d['id'])` of a document (documents given to the
reconciler carry an `id` field). -/
def docIdStr (d : Doc) : String :=
  pyValStr ((dlookup d "id").getD (PyVal.scalar PyScalar.pnone))

/-- The ids the multi-get reports as found (entries whose `found`
marker is present and true). -/
def foundIds (entries : List MGetIdEntry) : List String :=
  (entries.filter (fun e => e.found = some true)).map (fun e => e.mid)

/-- What `index_missing_documents` did: nothing at all (empty input, no
network call), a multi-get with no bulk call, or a multi-get followed by
one bulk-index of the given documents. -/
inductive IMDOutcome where
  | noop
  | noBulk
  | bulkIndex : List Doc → IMDOutcome
deriving DecidableEq, Repr

/-- Modelled from the spec: `ES.index_missing_documents(documents,
chunk_size)` — a no-op on empty input; otherwise the documents' ids are
multi-got against the index (`resp` is the engine's answer); on
index-not-found no id counts as existing; documents whose id is not
reported found are bulk-indexed, in input order; nothing is indexed when
every id is found. -/
def index_missing_documents (docs : List Doc) (resp : MGetIds) : IMDOutcome :=
  if docs = [] then .noop
  else
    let ids := match resp with
      | .indexNotFound => []
      | .ok entries => foundIds entries
    let missing := docs.filter (fun d => decide (docIdStr d ∉ ids))
    if missing = [] then .noBulk else .bulkIndex missing

/-! ## Result Wrapper and read operations -/

/-- The Result Wrapper: an ordered sequence of documents plus the query
metadata (`total`, `start`, requested `fields`, engine timing). -/
structure ESDocs where
  docs : List Doc
  total : Nat
  start : Nat
  fields : List String
  took : Option PyVal
deriving DecidableEq, Repr

/-- What a read operation surfaces: a raised `JHTTPNotFound`, an
unmodelled Python fault (a malformed engine response), or a result. -/
inductive ReadResult (α : Type) where
  | notFound : String → ReadResult α
  | fault
  | ok : α → ReadResult α
deriving DecidableEq, Repr

/-- Map each element through a partial function, failing if any element
fails (a Python loop raising at the first bad element). -/
def optMapList (f : α → Option β) : List α → Option (List β)
  | [] => some []
  | x :: xs =>
    match f x, optMapList f xs with
    | some y, some ys => some (y :: ys)
    | _, _ => none

/-- One hit of a search response: the stored source and the
field-projection map (each present or not), the relevance score, and
the native id. -/
structure SearchHit where
  source : Option Doc
  fieldsProj : Option Doc
  score : PyVal
  hid : PyVal
deriving DecidableEq, Repr

/-- Modelled from the spec: the overlay applied to every built document
— the hit's relevance score and native id are written over it. -/
def overlayHit (h : SearchHit) (d : Doc) : Doc :=
  dinsert (dinsert d "_score" h.score) "_id" h.hid

/-- Modelled from the spec: Result Wrapper construction from search
hits — each hit's document is built from the field-projection map when
fields were requested, else from the full stored source, the overlay is
applied, and documents are appended in hit order. -/
def buildHitDocs (fields : List String) (hits : List SearchHit) : Option (List Doc) :=
  optMapList
    (fun h => ((if fields.isEmpty then h.source else h.fieldsProj).map (overlayHit h)))
    hits

/-- The engine's answer to a search request. -/
inductive SearchResp where
  | indexNotFound
  | ok : List SearchHit → Nat → PyVal → SearchResp
deriving DecidableEq, Repr

/-- Modelled from the spec: `ES.get_collection` (search path) — on
index-not-found, raise `JHTTPNotFound` under raise-on-empty, else
return an empty wrapper with zero total; otherwise wrap the hits (total
and timing as the engine reported them) and, when no document was
built, apply the same raise-or-empty policy. -/
def get_collection (raiseOnEmpty : Bool) (fields : List String) (start : Nat)
    (resp : SearchResp) : ReadResult ESDocs :=
  match resp with
  | .indexNotFound =>
    if raiseOnEmpty then .notFound "resource not found (Index does not exist)"
    else .ok ⟨[], 0, start, fields, none⟩
  | .ok hits total took =>
    match buildHitDocs fields hits with
    | none => .fault
    | some ds =>
      if ds = [] ∧ raiseOnEmpty then .notFound "resource not found"
      else .ok ⟨ds, total, start, fields, some took⟩

/-- One entry of a multi-get fetch: the stored source and the
field-projection map, each present or not. -/
structure MGetEntry where
  source : Option Doc
  fieldsProj : Option Doc
deriving DecidableEq, Repr

/-- The engine's answer to a multi-get fetch. -/
inductive MGetResp where
  | indexNotFound
  | ok : List MGetEntry → MGetResp
deriving DecidableEq, Repr

/-- Modelled from the spec: `ES.get_by_ids(documents, ...)` — an empty
id list yields a fresh empty wrapper (no network call); index-not-found
follows the raise-or-empty policy with zero total; otherwise entries
lacking a retrievable payload are excluded, an empty exclusion result
follows the policy, and the wrapper's total is the number of returned
documents. -/
def get_by_ids (ids : List Doc) (raiseOnEmpty : Bool) (fields : List String)
    (start : Nat) (resp : MGetResp) : ReadResult ESDocs :=
  if ids = [] then .ok ⟨[], 0, 0, [], none⟩
  else
    match resp with
    | .indexNotFound =>
      if raiseOnEmpty then .notFound "resource not found (Index does not exist)"
      else .ok ⟨[], 0, start, fields, none⟩
    | .ok entries =>
      let pays := entries.filterMap
        (fun en => if fields.isEmpty then en.source else en.fieldsProj)
      if pays = [] ∧ raiseOnEmpty then .notFound "resource not found"
      else .ok ⟨pays, pays.length, start, fields, none⟩

/-- The engine's answer to a get-source request: index absent, or the
stored source (possibly an empty mapping). -/
inductive GetSourceResp where
  | indexNotFound
  | ok : Doc → GetSourceResp
deriving DecidableEq, Repr

/-- Modelled from the spec: `ES.get_resource(...)` — index-not-found
and a present-but-empty payload both count as not found, following the
raise-or-empty policy; otherwise the document is returned. -/
def get_resource (raiseOnEmpty : Bool) (resp : GetSourceResp) : ReadResult (Option Doc) :=
  match resp with
  | .indexNotFound =>
    if raiseOnEmpty then .notFound "resource not found (Index does not exist)"
    else .ok none
  | .ok d =>
    if d = [] then
      if raiseOnEmpty then .notFound "resource not found" else .ok none
    else .ok (some d)

/-- The engine's answer to a count request. -/
inductive CountResp where
  | indexNotFound
  | ok : Nat → CountResp
deriving DecidableEq, Repr

/-- Modelled from the spec: the count-only parameters — `sort`,
`from_` and `size` are stripped before the count request. -/
def do_count_params (params : Doc) : Doc :=
  params.filter (fun p => decide (p.1 ≠ "size" ∧ p.1 ≠ "from_" ∧ p.1 ≠ "sort"))

/-- Modelled from the spec: `ES.do_count` — the engine-reported count,
and 0 (not an error) when the index does not exist. -/
def do_count (resp : CountResp) : Nat :=
  match resp with
  | .indexNotFound => 0
  | .ok n => n

/-! ## Helper lemmas: chunk splitting -/

theorem process_chunks_fuel_congr (f : Nat) :
    ∀ (g : Nat) (l : List α) (n : Nat), l.length ≤ f → l.length ≤ g →
      process_chunks_fuel f l n = process_chunks_fuel g l n := by
  induction f with
  | zero =>
    intro g l n hf _
    have hl : l = [] := List.length_eq_zero.mp (Nat.le_zero.mp hf)
    subst hl
    cases g <;> rfl
  | succ f ih =>
    intro g l n hf hg
    cases l with
    | nil => cases g <;> rfl
    | cons x xs =>
      cases g with
      | zero => exact absurd hg (by simp)
      | succ g =>
        show (if n = 0 then [] else _) = (if n = 0 then [] else _)
        by_cases hn : n = 0
        · simp [hn]
        · simp only [if_neg hn]
          have hlen : ((x :: xs).drop n).length ≤ f := by
            simp only [List.length_drop, List.length_cons] at *
            omega
          have hlen' : ((x :: xs).drop n).length ≤ g := by
            simp only [List.length_drop, List.length_cons] at *
            omega
          rw [ih g ((x :: xs).drop n) n hlen hlen']

theorem process_chunks_nil (n : Nat) : process_chunks ([] : List α) n = [] := rfl

/-- The stepping equation of `process_chunks` on a non-empty input and
positive chunk size. -/
theorem process_chunks_step (l : List α) (n : Nat) (hl : l ≠ []) (hn : n ≠ 0) :
    process_chunks l n = l.take n :: process_chunks (l.drop n) n := by
  cases l with
  | nil => exact absurd rfl hl
  | cons x xs =>
    show process_chunks_fuel (xs.length + 1) (x :: xs) n = _
    show (if n = 0 then [] else _) = _
    rw [if_neg hn]
    congr 1
    apply process_chunks_fuel_congr
    · simp only [List.length_drop, List.length_cons]
      omega
    · exact Nat.le_refl _

/-- Concatenating the chunks restores the input: no element is lost,
duplicated, or reordered. -/
theorem process_chunks_flatten (l : List α) (n : Nat) (hn : 0 < n) :
    (process_chunks l n).flatten = l := by
  by_cases hl : l = []
  · subst hl; rfl
  · rw [process_chunks_step l n hl (Nat.pos_iff_ne_zero.mp hn)]
    have ih := process_chunks_flatten (l.drop n) n hn
    simp only [List.flatten_cons, ih]
    exact List.take_append_drop n l
termination_by l.length
decreasing_by
  simp only [List.length_drop]
  have : l.length ≠ 0 := fun h => hl (List.length_eq_zero.mp h)
  omega

/-- Every chunk is non-empty and holds at most `n` elements. -/
theorem process_chunks_mem (l : List α) (n : Nat) (hn : 0 < n) :
    ∀ c ∈ process_chunks l n, c ≠ [] ∧ c.length ≤ n := by
  by_cases hl : l = []
  · subst hl; intro c hc; cases hc
  · rw [process_chunks_step l n hl (Nat.pos_iff_ne_zero.mp hn)]
    intro c hc
    rcases List.mem_cons.mp hc with hc | hc
    · subst hc
      refine ⟨?_, by simp⟩
      simp only [ne_eq, List.take_eq_nil_iff]
      push_neg
      exact ⟨Nat.pos_iff_ne_zero.mp hn, hl⟩
    · exact process_chunks_mem (l.drop n) n hn c hc
termination_by l.length
decreasing_by
  simp only [List.length_drop]
  have : l.length ≠ 0 := fun h => hl (List.length_eq_zero.mp h)
  omega

/-- Every chunk except possibly the last is exactly full. -/
theorem process_chunks_full (l : List α) (n : Nat) (hn : 0 < n) :
    ∀ c ∈ (process_chunks l n).dropLast, c.length = n := by
  by_cases hl : l = []
  · subst hl; intro c hc; cases hc
  · rw [process_chunks_step l n hl (Nat.pos_iff_ne_zero.mp hn)]
    intro c hc
    by_cases hrest : l.drop n = []
    · rw [hrest, process_chunks_nil] at hc
      cases hc
    · have hrc : process_chunks (l.drop n) n ≠ [] := by
        rw [process_chunks_step (l.drop n) n hrest (Nat.pos_iff_ne_zero.mp hn)]
        exact List.cons_ne_nil _ _
      rw [List.dropLast_cons_of_ne_nil hrc] at hc
      rcases List.mem_cons.mp hc with hc | hc
      · subst hc
        have hlong : n ≤ l.length := by
          by_contra hshort
          exact hrest (List.drop_eq_nil_of_le (Nat.le_of_not_le hshort))
        simpa using hlong
      · exact process_chunks_full (l.drop n) n hn c hc
termination_by l.length
decreasing_by
  simp only [List.length_drop]
  have : l.length ≠ 0 := fun h => hl (List.length_eq_zero.mp h)
  omega

/-! ## Helper lemmas: flattening as a block-wise concat-map -/

/-- Concatenate the images of the elements, in order. -/
def concatMapL (f : α → List β) : List α → List β
  | [] => []
  | x :: xs => f x ++ concatMapL f xs

theorem concatMapL_nil (f : α → List β) : concatMapL f [] = [] := rfl

theorem concatMapL_cons (f : α → List β) (x : α) (xs : List α) :
    concatMapL f (x :: xs) = f x ++ concatMapL f xs := rfl

theorem concatMapL_eq_nil_iff (f : α → List β) (k : Nat) (hk : 0 < k)
    (hf : ∀ a, (f a).length = k) (l : List α) :
    concatMapL f l = [] ↔ l = [] := by
  cases l with
  | nil => simp [concatMapL_nil]
  | cons x xs =>
    simp only [concatMapL_cons, List.append_eq_nil]
    constructor
    · rintro ⟨hfx, -⟩
      have hlen := hf x
      rw [hfx] at hlen
      simp only [List.length_nil] at hlen
      omega
    · intro h; cases h

theorem concatMapL_take (f : α → List β) (k : Nat) (hf : ∀ a, (f a).length = k) :
    ∀ (m : Nat) (l : List α), (concatMapL f l).take (m * k) = concatMapL f (l.take m) := by
  intro m
  induction m with
  | zero => intro l; simp [concatMapL_nil]
  | succ m ih =>
    intro l
    cases l with
    | nil => simp [concatMapL_nil]
    | cons x xs =>
      rw [List.take_succ_cons, concatMapL_cons, concatMapL_cons]
      have harith : (m + 1) * k = (f x).length + m * k := by
        rw [hf x]; ring
      rw [harith, List.take_append, ih xs]

theorem concatMapL_drop (f : α → List β) (k : Nat) (hf : ∀ a, (f a).length = k) :
    ∀ (m : Nat) (l : List α), (concatMapL f l).drop (m * k) = concatMapL f (l.drop m) := by
  intro m
  induction m with
  | zero => intro l; simp
  | succ m ih =>
    intro l
    cases l with
    | nil => simp [concatMapL_nil]
    | cons x xs =>
      rw [List.drop_succ_cons, concatMapL_cons]
      have harith : (m + 1) * k = (f x).length + m * k := by
        rw [hf x]; ring
      rw [harith, List.drop_append, ih xs]

/-- Chunking a block-wise expansion with a proportionally scaled chunk
size is the expansion of the chunks: with `k` entries per element, each
physical chunk of `cs * k` entries covers exactly `cs` elements. -/
theorem process_chunks_concatMapL (f : α → List β) (k : Nat) (hk : 0 < k)
    (hf : ∀ a, (f a).length = k) (cs : Nat) (hcs : 0 < cs) (l : List α) :
    process_chunks (concatMapL f l) (cs * k) = (process_chunks l cs).map (concatMapL f) := by
  by_cases hl : l = []
  · subst hl
    rw [concatMapL_nil]
    rfl
  · have hfl : concatMapL f l ≠ [] :=
      fun h => hl ((concatMapL_eq_nil_iff f k hk hf l).mp h)
    have hcsk : cs * k ≠ 0 := Nat.pos_iff_ne_zero.mp (Nat.mul_pos hcs hk)
    rw [process_chunks_step (concatMapL f l) (cs * k) hfl hcsk,
        process_chunks_step l cs hl (Nat.pos_iff_ne_zero.mp hcs)]
    simp only [List.map_cons]
    congr 1
    · exact concatMapL_take f k hf cs l
    · rw [concatMapL_drop f k hf cs l]
      exact process_chunks_concatMapL f k hk hf cs hcs (l.drop cs)
termination_by l.length
decreasing_by
  simp only [List.length_drop]
  have : l.length ≠ 0 := fun h => hl (List.length_eq_zero.mp h)
  omega

theorem concatMapL_countP (f : α → List β) (p : β → Bool) (c : Nat)
    (hf : ∀ a, (f a).countP p = c) :
    ∀ l : List α, (concatMapL f l).countP p = l.length * c := by
  intro l
  induction l with
  | nil => simp [concatMapL_nil]
  | cons x xs ih =>
    simp only [concatMapL_cons, List.countP_append, hf x, ih, List.length_cons]
    ring

theorem dropLast_map (f : α → β) : ∀ l : List α, (l.map f).dropLast = l.dropLast.map f := by
  intro l
  induction l with
  | nil => rfl
  | cons x xs ih =>
    cases xs with
    | nil => rfl
    | cons y ys => simp [List.dropLast_cons₂, ih]

/-! ## Helper lemmas: dict lookup and insertion -/

theorem dlookup_append_right (d₁ d₂ : Doc) (k : String)
    (h : dlookup d₁ k = none) : dlookup (d₁ ++ d₂) k = dlookup d₂ k := by
  induction d₁ with
  | nil => rfl
  | cons p rest ih =>
    simp only [dlookup] at h
    simp only [List.cons_append, dlookup]
    by_cases hk : p.1 = k
    · rw [if_pos hk] at h; cases h
    · rw [if_neg hk] at h
      rw [if_neg hk]
      exact ih h

theorem dlookup_of_not_mem_keys (d : Doc) (k : String) (h : k ∉ d.map Prod.fst) :
    dlookup d k = none := by
  induction d with
  | nil => rfl
  | cons p rest ih =>
    simp only [List.map_cons, List.mem_cons, not_or] at h
    simp only [dlookup]
    rw [if_neg (fun he => h.1 he.symm)]
    exact ih h.2

theorem dlookup_replace (k : String) (v : PyVal) :
    ∀ d : Doc, k ∈ d.map Prod.fst →
      dlookup (d.map (fun p => if p.1 = k then (k, v) else p)) k = some v := by
  intro d
  induction d with
  | nil => intro hc; cases hc
  | cons p rest ih =>
    intro hc
    by_cases hk : p.1 = k
    · simp only [List.map_cons, if_pos hk]
      show dlookup ((k, v) :: _) k = some v
      simp [dlookup]
    · simp only [List.map_cons, if_neg hk]
      show dlookup (p :: _) k = some v
      simp only [dlookup]
      rw [if_neg hk]
      apply ih
      simp only [List.map_cons] at hc
      rcases List.mem_cons.mp hc with h | h
      · exact absurd h.symm hk
      · exact h

theorem dlookup_replace_ne (k k' : String) (v : PyVal) (h : k' ≠ k) :
    ∀ d : Doc,
      dlookup (d.map (fun p => if p.1 = k then (k, v) else p)) k' = dlookup d k' := by
  intro d
  induction d with
  | nil => rfl
  | cons p rest ih =>
    by_cases hk : p.1 = k
    · simp only [List.map_cons, if_pos hk]
      show dlookup ((k, v) :: _) k' = dlookup (p :: rest) k'
      simp only [dlookup]
      have h1 : ¬(k = k') := fun he => h he.symm
      have h2 : ¬(p.1 = k') := fun he => h1 (hk.symm.trans he)
      rw [if_neg h1, if_neg h2]
      exact ih
    · simp only [List.map_cons, if_neg hk]
      show dlookup (p :: _) k' = dlookup (p :: rest) k'
      simp only [dlookup]
      by_cases hk' : p.1 = k'
      · rw [if_pos hk', if_pos hk']
      · rw [if_neg hk', if_neg hk']
        exact ih

theorem dlookup_append_single_ne (k k' : String) (v : PyVal) (h : k' ≠ k) :
    ∀ d : Doc, dlookup (d ++ [(k, v)]) k' = dlookup d k' := by
  intro d
  induction d with
  | nil =>
    show dlookup [(k, v)] k' = none
    simp only [dlookup]
    rw [if_neg (fun he => h he.symm)]
  | cons p rest ih =>
    simp only [List.cons_append, dlookup]
    by_cases hk' : p.1 = k'
    · rw [if_pos hk', if_pos hk']
    · rw [if_neg hk', if_neg hk']
      exact ih

theorem dlookup_dinsert_self (d : Doc) (k : String) (v : PyVal) :
    dlookup (dinsert d k v) k = some v := by
  unfold dinsert
  by_cases hc : k ∈ d.map Prod.fst
  · rw [if_pos hc]
    exact dlookup_replace k v d hc
  · rw [if_neg hc]
    rw [dlookup_append_right d [(k, v)] k (dlookup_of_not_mem_keys d k hc)]
    simp [dlookup]

theorem dlookup_dinsert_ne (d : Doc) (k k' : String) (v : PyVal) (h : k' ≠ k) :
    dlookup (dinsert d k v) k' = dlookup d k' := by
  unfold dinsert
  by_cases hc : k ∈ d.map Prod.fst
  · rw [if_pos hc]
    exact dlookup_replace_ne k k' v h d
  · rw [if_neg hc]
    exact dlookup_append_single_ne k k' v h d

theorem overlayHit_score (h : SearchHit) (d : Doc) :
    dlookup (overlayHit h d) "_score" = some h.score := by
  unfold overlayHit
  rw [dlookup_dinsert_ne _ _ _ _ (by decide)]
  exact dlookup_dinsert_self _ _ _

theorem overlayHit_id (h : SearchHit) (d : Doc) :
    dlookup (overlayHit h d) "_id" = some h.hid := by
  unfold overlayHit
  exact dlookup_dinsert_self _ _ _

/-! ## Claim theorems -/

/-- C7: for every documents list, operation, and positive chunk size,
`process_chunks` invokes the operation once per consecutive slice of at
most `chunk_size` elements (the returned list being the invocation
arguments in order), never with an empty slice, with no element lost or
duplicated across slices; an empty input invokes it zero times; and
`process_chunks [1,2,3,4,5]` with chunk size 3 yields exactly the two
slices `[1,2,3]` then `[4,5]`. -/
theorem C7_process_chunks :
    (∀ (α : Type) (documents : List α) (chunk_size : Nat), 0 < chunk_size →
      (process_chunks documents chunk_size).flatten = documents ∧
      (∀ c ∈ process_chunks documents chunk_size, c ≠ [] ∧ c.length ≤ chunk_size) ∧
      (documents = [] → process_chunks documents chunk_size = [])) ∧
    process_chunks [1, 2, 3, 4, 5] 3 = [[1, 2, 3], [4, 5]] := by
  constructor
  · intro α documents chunk_size h
    refine ⟨process_chunks_flatten _ _ h, process_chunks_mem _ _ h, ?_⟩
    intro he
    subst he
    rfl
  · decide

/-- Witness for C7 at the test's input. -/
theorem C7_process_chunks_witness :
    0 < 3 ∧ (process_chunks [1, 2, 3, 4, 5] 3).flatten = [1, 2, 3, 4, 5] :=
  ⟨by decide, (C7_process_chunks.1 Nat [1, 2, 3, 4, 5] 3 (by decide)).1⟩

/-- C3: the transport adapter returns a successful response unchanged,
turns a transport failure with the engine's 404 status into the
distinguished `IndexNotFoundException`, and turns any other transport
failure into a `JHTTPBadRequest` carrying the original error detail. -/
theorem C3_perform_request :
    (∀ (α : Type) (r : α), perform_request (TransportCall.success r) = PerformResult.ok r) ∧
    (∀ (α : Type) (detail : String),
      perform_request (TransportCall.failure (ESStat.code 404) detail : TransportCall α) =
        PerformResult.indexNotFound) ∧
    (∀ (α : Type) (st : ESStat) (detail : String), st ≠ ESStat.code 404 →
      perform_request (TransportCall.failure st detail : TransportCall α) =
        PerformResult.badRequest detail) := by
  refine ⟨fun α r => rfl, fun α detail => by simp [perform_request], ?_⟩
  intro α st detail h
  simp [perform_request, h]

/-- Witness for C3 at the tests' inputs (the `'N/A'` status and 404). -/
theorem C3_perform_request_witness :
    ESStat.na ≠ ESStat.code 404 ∧
    perform_request (TransportCall.failure ESStat.na "" : TransportCall Nat) =
      PerformResult.badRequest "" :=
  ⟨by decide, C3_perform_request.2.2 Nat ESStat.na "" (by decide)⟩

/-- C10: when preparation yields no (envelope, document) pairs, the bulk
tail performs no chunk processing and submits no bulk request at all,
regardless of the action and chunk size — the no-op guarantee holds at
the stage after preparation, which the shipped test exercises by
stubbing `prep_bulk_documents` to return an empty list on a non-empty
input. -/
theorem C10_bulk_empty_prepared :
    ∀ (action : String) (cs : Nat), bulk_from_pairs action cs [] = [] :=
  fun _ _ => rfl

/-- The reconciliation filter: the input documents whose id the
multi-get did not report as found, in input order. -/
theorem foundIds_mem (entries : List MGetIdEntry) (x : String) :
    x ∈ foundIds entries ↔ ∃ e ∈ entries, e.found = some true ∧ e.mid = x := by
  unfold foundIds
  simp only [List.mem_map, List.mem_filter]
  constructor
  · rintro ⟨e, ⟨he, hf⟩, hm⟩
    exact ⟨e, he, by simpa using hf, hm⟩
  · rintro ⟨e, he, hf, hm⟩
    exact ⟨e, ⟨he, by simpa using hf⟩, hm⟩

/-- C2: `index_missing_documents` performs no network call at all on an
empty input; on `IndexNotFoundException` from the multi-get it indexes
all input documents; otherwise it indexes exactly those documents whose
id the multi-get did not mark found (marked not found, or carrying no
found marker), in input order, and performs no bulk call at all when
every id is reported found. -/
theorem C2_index_missing_documents :
    (∀ resp, index_missing_documents [] resp = IMDOutcome.noop) ∧
    (∀ docs : List Doc, docs ≠ [] →
      index_missing_documents docs MGetIds.indexNotFound = IMDOutcome.bulkIndex docs) ∧
    (∀ (docs : List Doc) (entries : List MGetIdEntry), docs ≠ [] →
      (∀ d ∈ docs, docIdStr d ∈ foundIds entries) →
      index_missing_documents docs (MGetIds.ok entries) = IMDOutcome.noBulk) ∧
    (∀ (docs : List Doc) (entries : List MGetIdEntry), docs ≠ [] →
      (docs.filter (fun d => decide (docIdStr d ∉ foundIds entries)) = [] →
        index_missing_documents docs (MGetIds.ok entries) = IMDOutcome.noBulk) ∧
      (docs.filter (fun d => decide (docIdStr d ∉ foundIds entries)) ≠ [] →
        index_missing_documents docs (MGetIds.ok entries) =
          IMDOutcome.bulkIndex
            (docs.filter (fun d => decide (docIdStr d ∉ foundIds entries)))) ∧
      (docs.filter (fun d => decide (docIdStr d ∉ foundIds entries))).Sublist docs ∧
      (∀ d, d ∈ docs.filter (fun d => decide (docIdStr d ∉ foundIds entries)) ↔
        d ∈ docs ∧ ∀ e ∈ entries, e.mid = docIdStr d → e.found ≠ some true)) := by
  refine ⟨fun resp => rfl, ?_, ?_, ?_⟩
  · intro docs hne
    unfold index_missing_documents
    rw [if_neg hne]
    show (if docs.filter (fun d => decide (docIdStr d ∉ ([] : List String))) = []
          then IMDOutcome.noBulk
          else IMDOutcome.bulkIndex
            (docs.filter (fun d => decide (docIdStr d ∉ ([] : List String))))) =
        IMDOutcome.bulkIndex docs
    have hall : docs.filter (fun d => decide (docIdStr d ∉ ([] : List String))) = docs :=
      List.filter_eq_self.mpr (fun a _ => by simp)
    rw [hall, if_neg hne]
  · intro docs entries hne hfound
    unfold index_missing_documents
    rw [if_neg hne]
    show (if docs.filter (fun d => decide (docIdStr d ∉ foundIds entries)) = []
          then IMDOutcome.noBulk
          else IMDOutcome.bulkIndex
            (docs.filter (fun d => decide (docIdStr d ∉ foundIds entries)))) =
        IMDOutcome.noBulk
    have hnil : docs.filter (fun d => decide (docIdStr d ∉ foundIds entries)) = [] := by
      rw [List.filter_eq_nil_iff]
      intro a ha
      simp only [decide_eq_true_eq, not_not]
      exact hfound a ha
    rw [hnil, if_pos rfl]
  · intro docs entries hne
    refine ⟨?_, ?_, List.filter_sublist docs, ?_⟩
    · intro hnil
      unfold index_missing_documents
      rw [if_neg hne]
      show (if docs.filter (fun d => decide (docIdStr d ∉ foundIds entries)) = []
            then IMDOutcome.noBulk
            else IMDOutcome.bulkIndex
              (docs.filter (fun d => decide (docIdStr d ∉ foundIds entries)))) =
          IMDOutcome.noBulk
      rw [if_pos hnil]
    · intro hnn
      unfold index_missing_documents
      rw [if_neg hne]
      show (if docs.filter (fun d => decide (docIdStr d ∉ foundIds entries)) = []
            then IMDOutcome.noBulk
            else IMDOutcome.bulkIndex
              (docs.filter (fun d => decide (docIdStr d ∉ foundIds entries)))) = _
      rw [if_neg hnn]
    · intro d
      rw [List.mem_filter]
      simp only [decide_eq_true_eq]
      constructor
      · rintro ⟨hd, hnot⟩
        refine ⟨hd, ?_⟩
        intro e he hmid hf
        exact hnot ((foundIds_mem entries (docIdStr d)).mpr ⟨e, he, hf, hmid⟩)
      · rintro ⟨hd, hnone⟩
        refine ⟨hd, ?_⟩
        intro hmem
        obtain ⟨e, he, hf, hm⟩ := (foundIds_mem entries (docIdStr d)).mp hmem
        exact hnone e he hm hf

/-- Witness for C2 at the test's input: three documents with ids 1, 2
and 3, the multi-get marking id 2 found, id 1 not found and id 3
unmarked. -/
theorem C2_index_missing_documents_witness :
    ([[("id", PyVal.scalar (PyScalar.pint 1)), ("name", PyVal.scalar (PyScalar.pstr "foo"))],
      [("id", PyVal.scalar (PyScalar.pint 2)), ("name", PyVal.scalar (PyScalar.pstr "bar"))],
      [("id", PyVal.scalar (PyScalar.pint 3)), ("name", PyVal.scalar (PyScalar.pstr "baz"))]]
        : List Doc) ≠ [] ∧
    ([[("id", PyVal.scalar (PyScalar.pint 1)), ("name", PyVal.scalar (PyScalar.pstr "foo"))],
      [("id", PyVal.scalar (PyScalar.pint 2)), ("name", PyVal.scalar (PyScalar.pstr "bar"))],
      [("id", PyVal.scalar (PyScalar.pint 3)), ("name", PyVal.scalar (PyScalar.pstr "baz"))]]
        : List Doc).filter
      (fun d => decide (docIdStr d ∉
        foundIds [⟨"1", some false⟩, ⟨"2", some true⟩, ⟨"3", none⟩])) ≠ [] ∧
    index_missing_documents
      [[("id", PyVal.scalar (PyScalar.pint 1)), ("name", PyVal.scalar (PyScalar.pstr "foo"))],
       [("id", PyVal.scalar (PyScalar.pint 2)), ("name", PyVal.scalar (PyScalar.pstr "bar"))],
       [("id", PyVal.scalar (PyScalar.pint 3)), ("name", PyVal.scalar (PyScalar.pstr "baz"))]]
      (MGetIds.ok [⟨"1", some false⟩, ⟨"2", some true⟩, ⟨"3", none⟩]) =
      IMDOutcome.bulkIndex
        (([[("id", PyVal.scalar (PyScalar.pint 1)), ("name", PyVal.scalar (PyScalar.pstr "foo"))],
           [("id", PyVal.scalar (PyScalar.pint 2)), ("name", PyVal.scalar (PyScalar.pstr "bar"))],
           [("id", PyVal.scalar (PyScalar.pint 3)), ("name", PyVal.scalar (PyScalar.pstr "baz"))]]
             : List Doc).filter
          (fun d => decide (docIdStr d ∉
            foundIds [⟨"1", some false⟩, ⟨"2", some true⟩, ⟨"3", none⟩]))) :=
  ⟨by decide, by decide,
    ((C2_index_missing_documents.2.2.2 _ _ (by decide)).2.1 (by decide))⟩

/-- Preparation fails with the first non-mapping document's error. -/
theorem prep_error_first (client : ESClient) (action s : String) :
    ∀ (pre rest : List PyObj), (∀ d ∈ pre, ∃ f, d = PyObj.pdict f) →
      prep_bulk_documents client action (pre ++ PyObj.pstr s :: rest) =
        Except.error "Document type must be `dict` not a `str`" := by
  intro pre
  induction pre with
  | nil =>
    intro rest _
    rfl
  | cons d ds ih =>
    intro rest hpre
    obtain ⟨f, hf⟩ := hpre d (List.mem_cons_self d ds)
    subst hf
    show (match prep_one client action (PyObj.pdict f),
            prep_bulk_documents client action (ds ++ PyObj.pstr s :: rest) with
          | .ok p, .ok ps => Except.ok (p :: ps)
          | .error e, _ => Except.error e
          | .ok _, .error e => Except.error e) = _
    rw [ih rest (fun d hd => hpre d (List.mem_cons_of_mem _ hd))]
    rfl

/-- A successful preparation pairs off the documents one-to-one, in
input order. -/
theorem prep_ok_parts (client : ESClient) (action : String) :
    ∀ (docs : List PyObj) (pairs : List (Envelope × Doc)),
      prep_bulk_documents client action docs = Except.ok pairs →
      pairs.length = docs.length ∧
      ∀ i (h1 : i < docs.length) (h2 : i < pairs.length),
        prep_one client action (docs.get ⟨i, h1⟩) = Except.ok (pairs.get ⟨i, h2⟩) := by
  intro docs
  induction docs with
  | nil =>
    intro pairs h
    cases h
    exact ⟨rfl, fun i h1 _ => absurd h1 (by simp)⟩
  | cons d ds ih =>
    intro pairs h
    simp only [prep_bulk_documents] at h
    cases hp : prep_one client action d with
    | error e =>
      rw [hp] at h
      cases h
    | ok p =>
      cases hps : prep_bulk_documents client action ds with
      | error e =>
        rw [hp, hps] at h
        cases h
      | ok ps =>
        rw [hp, hps] at h
        cases h
        obtain ⟨hlen, hget⟩ := ih ps hps
        refine ⟨by simp [hlen], ?_⟩
        intro i h1 h2
        cases i with
        | zero => exact hp
        | succ j =>
          have h1' : j < ds.length := by simpa using h1
          have h2' : j < ps.length := by simpa using h2
          exact hget j h1' h2'

/-- C6: `prep_bulk_documents` derives the envelope's `_type` from the
document's own type field lower-cased when present, else from the
client's default `doc_type`, takes `_id` from the document's `id` field
and `_index` from the client's index name; a non-mapping document fails
with the `ValueError` type-mismatch before any bulk request is issued
(the whole `_bulk` call errors with no submitted chunk); and the
returned pairs preserve input order. -/
theorem C6_prep_bulk_documents :
    (∀ (client : ESClient) (action s : String) (fields : Doc),
      dlookup fields "_type" = some (PyVal.scalar (PyScalar.pstr s)) →
      prep_one client action (PyObj.pdict fields) =
        Except.ok ({ key := action, action := action, envType := src2type s,
                     envId := dlookup fields "id", envIndex := client.index_name,
                     tstamp := none }, fields)) ∧
    (∀ (client : ESClient) (action : String) (fields : Doc),
      dlookup fields "_type" = none →
      prep_one client action (PyObj.pdict fields) =
        Except.ok ({ key := action, action := action, envType := client.doc_type,
                     envId := dlookup fields "id", envIndex := client.index_name,
                     tstamp := none }, fields)) ∧
    (∀ (client : ESClient) (action s : String),
      prep_one client action (PyObj.pstr s) =
        Except.error "Document type must be `dict` not a `str`") ∧
    (∀ (client : ESClient) (action s : String) (n : Option Nat)
        (pre rest : List PyObj),
      (∀ d ∈ pre, ∃ f, d = PyObj.pdict f) →
      ES_bulk client action (pre ++ PyObj.pstr s :: rest) n =
        Except.error "Document type must be `dict` not a `str`") ∧
    (∀ (client : ESClient) (action : String) (docs : List PyObj)
        (pairs : List (Envelope × Doc)),
      prep_bulk_documents client action docs = Except.ok pairs →
      pairs.length = docs.length ∧
      ∀ i (h1 : i < docs.length) (h2 : i < pairs.length),
        prep_one client action (docs.get ⟨i, h1⟩) = Except.ok (pairs.get ⟨i, h2⟩)) := by
  refine ⟨?_, ?_, fun client action s => rfl, ?_, fun client action docs pairs h =>
    prep_ok_parts client action docs pairs h⟩
  · intro client action s fields h
    simp only [prep_one]
    rw [h]
  · intro client action fields h
    simp only [prep_one]
    rw [h]
  · intro client action s n pre rest hpre
    have hne : pre ++ PyObj.pstr s :: rest ≠ [] := by simp
    unfold ES_bulk
    rw [if_neg hne, prep_error_first client action s pre rest hpre]

/-- Witness for C6 at the test's input: a document typed `'Story'` with
id `'story1'` against the `('Foo', 'foondex')` client. -/
theorem C6_prep_bulk_documents_witness :
    dlookup [("_type", PyVal.scalar (PyScalar.pstr "Story")),
             ("id", PyVal.scalar (PyScalar.pstr "story1"))] "_type" =
      some (PyVal.scalar (PyScalar.pstr "Story")) ∧
    prep_one ⟨"foondex", "foo", 100⟩ "myaction"
      (PyObj.pdict [("_type", PyVal.scalar (PyScalar.pstr "Story")),
                    ("id", PyVal.scalar (PyScalar.pstr "story1"))]) =
      Except.ok ({ key := "myaction", action := "myaction", envType := src2type "Story",
                   envId := dlookup [("_type", PyVal.scalar (PyScalar.pstr "Story")),
                                     ("id", PyVal.scalar (PyScalar.pstr "story1"))] "id",
                   envIndex := "foondex", tstamp := none },
                 [("_type", PyVal.scalar (PyScalar.pstr "Story")),
                  ("id", PyVal.scalar (PyScalar.pstr "story1"))]) :=
  ⟨by decide, C6_prep_bulk_documents.1 ⟨"foondex", "foo", 100⟩ "myaction" "Story"
    [("_type", PyVal.scalar (PyScalar.pstr "Story")),
     ("id", PyVal.scalar (PyScalar.pstr "story1"))] (by decide)⟩

/-- On all-non-delete pairs, flattening is the two-entry block map. -/
theorem flatten_nonDelete (pairs : List (Envelope × Doc))
    (h : ∀ p ∈ pairs, p.1.key ≠ "delete") :
    flatten pairs =
      concatMapL (fun p => [BulkEntry.env (stampEnv p.1 p.2), BulkEntry.payload p.2]) pairs := by
  induction pairs with
  | nil => rfl
  | cons p rest ih =>
    have hp := h p (List.mem_cons_self _ _)
    simp only [flatten, concatMapL_cons, if_neg hp]
    rw [ih (fun q hq => h q (List.mem_cons_of_mem _ hq))]

/-- On all-delete pairs, flattening is the one-entry block map. -/
theorem flatten_delete (pairs : List (Envelope × Doc))
    (h : ∀ p ∈ pairs, p.1.key = "delete") :
    flatten pairs = concatMapL (fun p => [BulkEntry.env p.1]) pairs := by
  induction pairs with
  | nil => rfl
  | cons p rest ih =>
    have hp := h p (List.mem_cons_self _ _)
    simp only [flatten, concatMapL_cons, if_pos hp]
    rw [ih (fun q hq => h q (List.mem_cons_of_mem _ hq))]

/-- C1: `_bulk` flattens the prepared (envelope, document) pairs so that
a delete pair contributes only its unchanged envelope while a non-delete
pair contributes its envelope followed by the document payload, the
envelope gaining a `_timestamp` entry exactly when the payload carries a
timestamp field; the flattened sequence is fed to `process_chunks` with
the chunk size doubled for non-delete actions (the requested size, the
client's when none is given), so that every physical chunk carries at
most the requested number of documents, and exactly that number on
every chunk but the last. -/
theorem C1_bulk_flatten_and_chunk :
    (∀ (p : Envelope × Doc) (rest : List (Envelope × Doc)), p.1.key = "delete" →
      flatten (p :: rest) = BulkEntry.env p.1 :: flatten rest) ∧
    (∀ (p : Envelope × Doc) (rest : List (Envelope × Doc)), p.1.key ≠ "delete" →
      flatten (p :: rest) =
        BulkEntry.env (stampEnv p.1 p.2) :: BulkEntry.payload p.2 :: flatten rest) ∧
    (∀ (e : Envelope) (d : Doc) (ts : PyVal),
      dlookup d "timestamp" = some ts → stampEnv e d = { e with tstamp := some ts }) ∧
    (∀ (e : Envelope) (d : Doc), dlookup d "timestamp" = none → stampEnv e d = e) ∧
    (∀ (action : String) (cs : Nat),
      bulk_chunk_size action cs = if action = "delete" then cs else cs * 2) ∧
    (∀ (client : ESClient) (action : String) (docs : List PyObj)
        (pairs : List (Envelope × Doc)) (n : Nat),
      docs ≠ [] → prep_bulk_documents client action docs = Except.ok pairs → pairs ≠ [] →
      ES_bulk client action docs none =
        Except.ok (process_chunks (flatten pairs) (bulk_chunk_size action client.chunk_size)) ∧
      ES_bulk client action docs (some n) =
        Except.ok (process_chunks (flatten pairs) (bulk_chunk_size action n))) ∧
    (∀ (cs : Nat) (pairs : List (Envelope × Doc)), 0 < cs →
      (∀ p ∈ pairs, p.1.key ≠ "delete") →
      process_chunks (flatten pairs) (cs * 2) = (process_chunks pairs cs).map flatten ∧
      (∀ ch ∈ process_chunks (flatten pairs) (cs * 2), ch.countP isPayloadEntry ≤ cs) ∧
      (∀ ch ∈ (process_chunks (flatten pairs) (cs * 2)).dropLast,
        ch.countP isPayloadEntry = cs)) ∧
    (∀ (cs : Nat) (pairs : List (Envelope × Doc)), 0 < cs →
      (∀ p ∈ pairs, p.1.key = "delete") →
      process_chunks (flatten pairs) cs = (process_chunks pairs cs).map flatten) := by
  refine ⟨?_, ?_, ?_, ?_, fun action cs => rfl, ?_, ?_, ?_⟩
  · intro p rest hp
    simp only [flatten, if_pos hp]
    rfl
  · intro p rest hp
    simp only [flatten, if_neg hp]
    rfl
  · intro e d ts h
    unfold stampEnv
    rw [h]
  · intro e d h
    unfold stampEnv
    rw [h]
  · intro client action docs pairs n hne hprep hpne
    constructor
    · unfold ES_bulk
      rw [if_neg hne, hprep]
      show Except.ok (if pairs = [] then []
          else process_chunks (flatten pairs) (bulk_chunk_size action client.chunk_size)) = _
      rw [if_neg hpne]
    · unfold ES_bulk
      rw [if_neg hne, hprep]
      show Except.ok (if pairs = [] then []
          else process_chunks (flatten pairs) (bulk_chunk_size action n)) = _
      rw [if_neg hpne]
  · intro cs pairs hcs hnd
    have hblocks : ∀ p : Envelope × Doc,
        ([BulkEntry.env (stampEnv p.1 p.2), BulkEntry.payload p.2]).length = 2 :=
      fun p => rfl
    have hcomm : process_chunks (flatten pairs) (cs * 2) =
        (process_chunks pairs cs).map flatten := by
      rw [flatten_nonDelete pairs hnd]
      rw [process_chunks_concatMapL _ 2 (by omega) hblocks cs hcs pairs]
      apply List.map_congr_left
      intro c hc
      have hmem : ∀ q ∈ c, q ∈ pairs := by
        intro q hq
        rw [← process_chunks_flatten pairs cs hcs]
        exact List.mem_flatten.mpr ⟨c, hc, hq⟩
      rw [flatten_nonDelete c (fun q hq => hnd q (hmem q hq))]
    refine ⟨hcomm, ?_, ?_⟩
    · intro ch hch
      rw [hcomm] at hch
      obtain ⟨c, hc, rfl⟩ := List.mem_map.mp hch
      have hmem : ∀ q ∈ c, q ∈ pairs := by
        intro q hq
        rw [← process_chunks_flatten pairs cs hcs]
        exact List.mem_flatten.mpr ⟨c, hc, hq⟩
      rw [flatten_nonDelete c (fun q hq => hnd q (hmem q hq))]
      rw [concatMapL_countP
        (fun p : Envelope × Doc => [BulkEntry.env (stampEnv p.1 p.2), BulkEntry.payload p.2])
        isPayloadEntry 1 (fun p => rfl) c]
      have := (process_chunks_mem pairs cs hcs c hc).2
      omega
    · intro ch hch
      rw [hcomm, dropLast_map] at hch
      obtain ⟨c, hc, rfl⟩ := List.mem_map.mp hch
      have hcin : c ∈ process_chunks pairs cs := List.dropLast_subset _ hc
      have hmem : ∀ q ∈ c, q ∈ pairs := by
        intro q hq
        rw [← process_chunks_flatten pairs cs hcs]
        exact List.mem_flatten.mpr ⟨c, hcin, hq⟩
      rw [flatten_nonDelete c (fun q hq => hnd q (hmem q hq))]
      rw [concatMapL_countP
        (fun p : Envelope × Doc => [BulkEntry.env (stampEnv p.1 p.2), BulkEntry.payload p.2])
        isPayloadEntry 1 (fun p => rfl) c]
      rw [process_chunks_full pairs cs hcs c hc]
      omega
  · intro cs pairs hcs hdel
    have hblocks : ∀ p : Envelope × Doc, ([BulkEntry.env p.1]).length = 1 :=
      fun p => rfl
    rw [flatten_delete pairs hdel]
    have := process_chunks_concatMapL (fun p : Envelope × Doc => [BulkEntry.env p.1])
      1 (by omega) hblocks cs hcs pairs
    rw [Nat.mul_one] at this
    rw [this]
    apply List.map_congr_left
    intro c hc
    have hmem : ∀ q ∈ c, q ∈ pairs := by
      intro q hq
      rw [← process_chunks_flatten pairs cs hcs]
      exact List.mem_flatten.mpr ⟨c, hc, hq⟩
    rw [flatten_delete c (fun q hq => hdel q (hmem q hq))]

/-- Witness for C1: one index document carrying a timestamp, prepared
and bulked by the `('Foo', 'foondex')` client with chunk size 1: the
bulk request chunks the flattened pairs with the doubled chunk size. -/
theorem C1_bulk_flatten_and_chunk_witness :
    ([PyObj.pdict [("_type", PyVal.scalar (PyScalar.pstr "Story")),
                   ("id", PyVal.scalar (PyScalar.pstr "story2")),
                   ("timestamp", PyVal.scalar (PyScalar.pint 2))]] : List PyObj) ≠ [] ∧
    prep_bulk_documents ⟨"foondex", "foo", 1⟩ "index"
      [PyObj.pdict [("_type", PyVal.scalar (PyScalar.pstr "Story")),
                    ("id", PyVal.scalar (PyScalar.pstr "story2")),
                    ("timestamp", PyVal.scalar (PyScalar.pint 2))]] =
      Except.ok [({ key := "index", action := "index", envType := "story",
                    envId := some (PyVal.scalar (PyScalar.pstr "story2")),
                    envIndex := "foondex", tstamp := none },
                  [("_type", PyVal.scalar (PyScalar.pstr "Story")),
                   ("id", PyVal.scalar (PyScalar.pstr "story2")),
                   ("timestamp", PyVal.scalar (PyScalar.pint 2))])] ∧
    ([({ key := "index", action := "index", envType := "story",
         envId := some (PyVal.scalar (PyScalar.pstr "story2")),
         envIndex := "foondex", tstamp := none },
       [("_type", PyVal.scalar (PyScalar.pstr "Story")),
        ("id", PyVal.scalar (PyScalar.pstr "story2")),
        ("timestamp", PyVal.scalar (PyScalar.pint 2))])] : List (Envelope × Doc)) ≠ [] ∧
    ES_bulk ⟨"foondex", "foo", 1⟩ "index"
      [PyObj.pdict [("_type", PyVal.scalar (PyScalar.pstr "Story")),
                    ("id", PyVal.scalar (PyScalar.pstr "story2")),
                    ("timestamp", PyVal.scalar (PyScalar.pint 2))]] (some 1) =
      Except.ok (process_chunks
        (flatten [({ key := "index", action := "index", envType := "story",
                     envId := some (PyVal.scalar (PyScalar.pstr "story2")),
                     envIndex := "foondex", tstamp := none },
                   [("_type", PyVal.scalar (PyScalar.pstr "Story")),
                    ("id", PyVal.scalar (PyScalar.pstr "story2")),
                    ("timestamp", PyVal.scalar (PyScalar.pint 2))])])
        (bulk_chunk_size "index" 1)) :=
  ⟨by decide, rfl, by decide,
    (C1_bulk_flatten_and_chunk.2.2.2.2.2.1 ⟨"foondex", "foo", 1⟩ "index"
      [PyObj.pdict [("_type", PyVal.scalar (PyScalar.pstr "Story")),
                    ("id", PyVal.scalar (PyScalar.pstr "story2")),
                    ("timestamp", PyVal.scalar (PyScalar.pint 2))]]
      [({ key := "index", action := "index", envType := "story",
          envId := some (PyVal.scalar (PyScalar.pstr "story2")),
          envIndex := "foondex", tstamp := none },
        [("_type", PyVal.scalar (PyScalar.pstr "Story")),
         ("id", PyVal.scalar (PyScalar.pstr "story2")),
         ("timestamp", PyVal.scalar (PyScalar.pint 2))])]
      1 (by decide) rfl (by decide)).2⟩

/-- A successful `optMapList` maps the elements one-to-one, in order. -/
theorem optMapList_ok (f : α → Option β) :
    ∀ (l : List α) (r : List β), optMapList f l = some r →
      r.length = l.length ∧
      ∀ i (h1 : i < l.length) (h2 : i < r.length),
        f (l.get ⟨i, h1⟩) = some (r.get ⟨i, h2⟩) := by
  intro l
  induction l with
  | nil =>
    intro r h
    cases h
    exact ⟨rfl, fun i h1 _ => absurd h1 (by simp)⟩
  | cons x xs ih =>
    intro r h
    simp only [optMapList] at h
    cases hx : f x with
    | none =>
      rw [hx] at h
      cases h
    | some y =>
      cases hxs : optMapList f xs with
      | none =>
        rw [hx, hxs] at h
        cases h
      | some ys =>
        rw [hx, hxs] at h
        cases h
        obtain ⟨hlen, hget⟩ := ih ys hxs
        refine ⟨by simp [hlen], ?_⟩
        intro i h1 h2
        cases i with
        | zero => exact hx
        | succ j =>
          have h1' : j < xs.length := by simpa using h1
          have h2' : j < ys.length := by simpa using h2
          exact hget j h1' h2'

/-- C8: the Result Wrapper builds each hit's document from the explicit
field-projection map when fields were requested, else from the full
stored source, always overlays the hit's relevance score and native id
onto it, and appends the documents in hit order; the wrapped collection
carries them with the engine-reported total and timing. -/
theorem C8_result_wrapper :
    (∀ (fields : List String) (hits : List SearchHit) (ds : List Doc),
      buildHitDocs fields hits = some ds →
      ds.length = hits.length ∧
      ∀ i (h1 : i < hits.length) (h2 : i < ds.length),
        ∃ base : Doc,
          (if fields.isEmpty then (hits.get ⟨i, h1⟩).source
           else (hits.get ⟨i, h1⟩).fieldsProj) = some base ∧
          ds.get ⟨i, h2⟩ = overlayHit (hits.get ⟨i, h1⟩) base ∧
          dlookup (ds.get ⟨i, h2⟩) "_score" = some (hits.get ⟨i, h1⟩).score ∧
          dlookup (ds.get ⟨i, h2⟩) "_id" = some (hits.get ⟨i, h1⟩).hid) ∧
    (∀ (raiseOnEmpty : Bool) (fields : List String) (start : Nat)
        (hits : List SearchHit) (total : Nat) (took : PyVal) (ds : List Doc),
      buildHitDocs fields hits = some ds → ds ≠ [] →
      get_collection raiseOnEmpty fields start (SearchResp.ok hits total took) =
        ReadResult.ok ⟨ds, total, start, fields, some took⟩) := by
  constructor
  · intro fields hits ds h
    obtain ⟨hlen, hget⟩ := optMapList_ok _ hits ds h
    refine ⟨hlen, ?_⟩
    intro i h1 h2
    have hi := hget i h1 h2
    rcases hbase : (if fields.isEmpty then (hits.get ⟨i, h1⟩).source
        else (hits.get ⟨i, h1⟩).fieldsProj) with _ | base
    · rw [hbase] at hi
      cases hi
    · rw [hbase] at hi
      have hd : ds.get ⟨i, h2⟩ = overlayHit (hits.get ⟨i, h1⟩) base :=
        (Option.some.inj hi).symm
      refine ⟨base, rfl, hd, ?_, ?_⟩
      · rw [hd]
        exact overlayHit_score _ _
      · rw [hd]
        exact overlayHit_id _ _
  · intro raiseOnEmpty fields start hits total took ds h hne
    show (match buildHitDocs fields hits with
          | none => ReadResult.fault
          | some es =>
            if es = [] ∧ raiseOnEmpty then ReadResult.notFound "resource not found"
            else ReadResult.ok { docs := es, total := total, start := start,
                                 fields := fields, took := some took }
          : ReadResult ESDocs) =
        ReadResult.ok { docs := ds, total := total, start := start,
                        fields := fields, took := some took }
    rw [h]
    show (if ds = [] ∧ raiseOnEmpty then ReadResult.notFound "resource not found"
          else ReadResult.ok { docs := ds, total := total, start := start,
                               fields := fields, took := some took }
          : ReadResult ESDocs) =
        ReadResult.ok { docs := ds, total := total, start := start,
                        fields := fields, took := some took }
    rw [if_neg (fun hc => hne hc.1)]

/-- Witness for C8 at the test's hit: a fields projection with the
score 2 overlaid. -/
theorem C8_result_wrapper_witness :
    buildHitDocs ["foo"]
      [⟨none, some [("foo", PyVal.scalar (PyScalar.pstr "bar")),
                    ("id", PyVal.scalar (PyScalar.pint 1))],
        PyVal.scalar (PyScalar.pint 2), PyVal.scalar (PyScalar.pstr "h1")⟩] =
      some [[("foo", PyVal.scalar (PyScalar.pstr "bar")),
             ("id", PyVal.scalar (PyScalar.pint 1)),
             ("_score", PyVal.scalar (PyScalar.pint 2)),
             ("_id", PyVal.scalar (PyScalar.pstr "h1"))]] ∧
    ([[("foo", PyVal.scalar (PyScalar.pstr "bar")),
       ("id", PyVal.scalar (PyScalar.pint 1)),
       ("_score", PyVal.scalar (PyScalar.pint 2)),
       ("_id", PyVal.scalar (PyScalar.pstr "h1"))]] : List Doc) ≠ [] ∧
    get_collection true ["foo"] 0
      (SearchResp.ok
        [⟨none, some [("foo", PyVal.scalar (PyScalar.pstr "bar")),
                      ("id", PyVal.scalar (PyScalar.pint 1))],
          PyVal.scalar (PyScalar.pint 2), PyVal.scalar (PyScalar.pstr "h1")⟩]
        4 (PyVal.scalar (PyScalar.pstr "2.8"))) =
      ReadResult.ok ⟨[[("foo", PyVal.scalar (PyScalar.pstr "bar")),
                      ("id", PyVal.scalar (PyScalar.pint 1)),
                      ("_score", PyVal.scalar (PyScalar.pint 2)),
                      ("_id", PyVal.scalar (PyScalar.pstr "h1"))]],
                     4, 0, ["foo"], some (PyVal.scalar (PyScalar.pstr "2.8"))⟩ :=
  ⟨by decide, by decide,
    C8_result_wrapper.2 true ["foo"] 0
      [⟨none, some [("foo", PyVal.scalar (PyScalar.pstr "bar")),
                    ("id", PyVal.scalar (PyScalar.pint 1))],
        PyVal.scalar (PyScalar.pint 2), PyVal.scalar (PyScalar.pstr "h1")⟩]
      4 (PyVal.scalar (PyScalar.pstr "2.8"))
      [[("foo", PyVal.scalar (PyScalar.pstr "bar")),
        ("id", PyVal.scalar (PyScalar.pint 1)),
        ("_score", PyVal.scalar (PyScalar.pint 2)),
        ("_id", PyVal.scalar (PyScalar.pstr "h1"))]]
      (by decide) (by decide)⟩

/-- C4 counterexample: `get_collection` under "do not raise", on a
search response with zero hits whose engine-reported total is 4,
returns a zero-length Result Wrapper whose total metadata is 4, not 0 —
the wrapper's total is the engine-reported total of matches, which need
not be zero when the page of hits is empty. -/
theorem C4_total_zero_counterexample :
    get_collection false [] 0 (SearchResp.ok [] 4 (PyVal.scalar (PyScalar.pint 3))) =
      ReadResult.ok ⟨[], 4, 0, [], some (PyVal.scalar (PyScalar.pint 3))⟩ ∧
    (4 : Nat) ≠ 0 :=
  ⟨by decide, by decide⟩

/-- C4 (amended): each read operation, on `IndexNotFoundException` or on
zero retrievable results, returns a local empty result under "do not
raise" and never raises — `get_by_ids` a zero-length wrapper with total
0 (an empty id list always yields the fresh empty wrapper), `do_count`
the count 0, `get_resource` no document — and raises a not-found
failure under "raise on empty"; `get_collection` likewise, its
zero-length wrapper's total being 0 on the index-not-found path and the
engine-reported total (0 whenever the engine reports 0 matches) on the
zero-hit path. -/
theorem C4_read_empty_paths (fields : List String) (start : Nat) :
    (∀ (raiseOnEmpty : Bool) (resp : MGetResp),
      get_by_ids [] raiseOnEmpty fields start resp = ReadResult.ok ⟨[], 0, 0, [], none⟩) ∧
    (∀ ids : List Doc, ids ≠ [] →
      get_by_ids ids true fields start MGetResp.indexNotFound =
        ReadResult.notFound "resource not found (Index does not exist)" ∧
      get_by_ids ids false fields start MGetResp.indexNotFound =
        ReadResult.ok ⟨[], 0, start, fields, none⟩) ∧
    (∀ (ids : List Doc) (entries : List MGetEntry), ids ≠ [] →
      (∀ en ∈ entries, (if fields.isEmpty then en.source else en.fieldsProj) = none) →
      get_by_ids ids true fields start (MGetResp.ok entries) =
        ReadResult.notFound "resource not found" ∧
      get_by_ids ids false fields start (MGetResp.ok entries) =
        ReadResult.ok ⟨[], 0, start, fields, none⟩) ∧
    (get_collection true fields start SearchResp.indexNotFound =
        ReadResult.notFound "resource not found (Index does not exist)" ∧
      get_collection false fields start SearchResp.indexNotFound =
        ReadResult.ok ⟨[], 0, start, fields, none⟩) ∧
    (∀ (total : Nat) (took : PyVal),
      get_collection true fields start (SearchResp.ok [] total took) =
        ReadResult.notFound "resource not found" ∧
      get_collection false fields start (SearchResp.ok [] total took) =
        ReadResult.ok ⟨[], total, start, fields, some took⟩) ∧
    do_count CountResp.indexNotFound = 0 ∧
    (get_resource true GetSourceResp.indexNotFound =
        ReadResult.notFound "resource not found (Index does not exist)" ∧
      get_resource false GetSourceResp.indexNotFound = ReadResult.ok none) ∧
    (get_resource true (GetSourceResp.ok []) = ReadResult.notFound "resource not found" ∧
      get_resource false (GetSourceResp.ok []) = ReadResult.ok none) := by
  refine ⟨?_, ?_, ?_, by constructor <;> rfl, fun total took => ⟨rfl, rfl⟩,
    rfl, ⟨rfl, rfl⟩, ⟨rfl, rfl⟩⟩
  · intro raiseOnEmpty resp
    unfold get_by_ids
    rw [if_pos rfl]
  · intro ids hne
    constructor
    · unfold get_by_ids
      rw [if_neg hne]
      rfl
    · unfold get_by_ids
      rw [if_neg hne]
      rfl
  · intro ids entries hne hnone
    have hpays : entries.filterMap
        (fun en => if fields.isEmpty then en.source else en.fieldsProj) = [] :=
      List.filterMap_eq_nil_iff.mpr hnone
    constructor
    · unfold get_by_ids
      rw [if_neg hne]
      show (if entries.filterMap
              (fun en => if fields.isEmpty then en.source else en.fieldsProj) = []
              ∧ true = true
            then ReadResult.notFound "resource not found"
            else ReadResult.ok
              { docs := entries.filterMap
                  (fun en => if fields.isEmpty then en.source else en.fieldsProj),
                total := (entries.filterMap
                  (fun en => if fields.isEmpty then en.source else en.fieldsProj)).length,
                start := start, fields := fields, took := none }
            : ReadResult ESDocs) = ReadResult.notFound "resource not found"
      rw [if_pos ⟨hpays, rfl⟩]
    · unfold get_by_ids
      rw [if_neg hne]
      show (if entries.filterMap
              (fun en => if fields.isEmpty then en.source else en.fieldsProj) = []
              ∧ false = true
            then ReadResult.notFound "resource not found"
            else ReadResult.ok
              { docs := entries.filterMap
                  (fun en => if fields.isEmpty then en.source else en.fieldsProj),
                total := (entries.filterMap
                  (fun en => if fields.isEmpty then en.source else en.fieldsProj)).length,
                start := start, fields := fields, took := none }
            : ReadResult ESDocs) = ReadResult.ok ⟨[], 0, start, fields, none⟩
      rw [if_neg (fun hc => Bool.false_ne_true hc.2)]
      rw [hpays]
      rfl

/-- Witness for C4 (amended) at a concrete input: one requested id
against an absent index, under both policies. -/
theorem C4_read_empty_paths_witness :
    ([[("_id", PyVal.scalar (PyScalar.pint 1))]] : List Doc) ≠ [] ∧
    get_by_ids [[("_id", PyVal.scalar (PyScalar.pint 1))]] true [] 0
        MGetResp.indexNotFound =
      ReadResult.notFound "resource not found (Index does not exist)" ∧
    get_by_ids [[("_id", PyVal.scalar (PyScalar.pint 1))]] false [] 0
        MGetResp.indexNotFound =
      ReadResult.ok ⟨[], 0, 0, [], none⟩ :=
  ⟨by decide,
    ((C4_read_empty_paths [] 0).2.1 [[("_id", PyVal.scalar (PyScalar.pint 1))]]
      (by decide)).1,
    ((C4_read_empty_paths [] 0).2.1 [[("_id", PyVal.scalar (PyScalar.pint 1))]]
      (by decide)).2⟩

/-- C5 counterexample: `build_qs` does not itself insert the operator
between the last clause and the raw terms — with clause `foo:1` and raw
terms `qoo:1` it produces the plain concatenation `foo:1qoo:1`, not
`foo:1 AND qoo:1`; the separator reaches the output only because
callers pass it inside `raw_terms` (as the shipped test does with
`' AND qoo:1'`). -/
theorem C5_raw_terms_counterexample :
    build_qs [("foo", PyVal.scalar (PyScalar.pint 1))] "qoo:1" "AND" = "foo:1qoo:1" ∧
    "foo:1qoo:1" ≠ "foo:1 AND qoo:1" :=
  ⟨by decide, by decide⟩

/-- C5 (amended): for every parameter mapping and non-empty raw_terms,
`build_qs` appends `raw_terms` verbatim after the joined clauses,
inserting no separator of its own (the caller includes the ` operator `
separator at the head of `raw_terms`); when the mapping produces no
clauses the raw terms still appear, with a leading ` operator `
separator trimmed. -/
theorem C5_raw_terms_amended (params : Doc) (operator raw_terms : String)
    (hraw : raw_terms ≠ "") :
    (nonEmptyClauses params ≠ [] →
      (build_qs params raw_terms operator).data =
        (build_qs params "" operator).data ++ raw_terms.data) ∧
    (nonEmptyClauses params = [] →
      build_qs params raw_terms operator =
        ⟨dropLeadingSep (sepChars operator) raw_terms.data⟩) := by
  constructor
  · intro hcl
    have hb : (nonEmptyClauses params).isEmpty = false := by
      cases hq : nonEmptyClauses params with
      | nil => exact absurd hq hcl
      | cons a l => rfl
    have h1 : build_qs params raw_terms operator =
        ⟨joinSep (sepChars operator) (nonEmptyClauses params) ++ raw_terms.data⟩ := by
      unfold build_qs
      rw [hb]
      rfl
    have h2 : build_qs params "" operator =
        ⟨joinSep (sepChars operator) (nonEmptyClauses params)⟩ := by
      unfold build_qs
      rw [hb]
      show String.mk (joinSep (sepChars operator) (nonEmptyClauses params)
        ++ ("" : String).data) = _
      rw [show ("" : String).data = [] from rfl, List.append_nil]
    rw [h1, h2]
  · intro hcl
    unfold build_qs
    rw [hcl]
    rfl

/-- Witness for C5 (amended) at the test's input: the `foo` list clause
with raw terms `' AND qoo:1'`. -/
theorem C5_raw_terms_amended_witness :
    (" AND qoo:1" : String) ≠ "" ∧
    nonEmptyClauses [("foo", PyVal.plist [PyScalar.pint 1, PyScalar.pint 2])] ≠ [] ∧
    (build_qs [("foo", PyVal.plist [PyScalar.pint 1, PyScalar.pint 2])]
        " AND qoo:1" "AND").data =
      (build_qs [("foo", PyVal.plist [PyScalar.pint 1, PyScalar.pint 2])] "" "AND").data
        ++ (" AND qoo:1" : String).data ∧
    build_qs [("foo", PyVal.plist [PyScalar.pint 1, PyScalar.pint 2])]
        " AND qoo:1" "AND" = "foo:1 OR foo:2 AND qoo:1" :=
  ⟨by decide, by decide,
    (C5_raw_terms_amended [("foo", PyVal.plist [PyScalar.pint 1, PyScalar.pint 2])]
      "AND" " AND qoo:1" (by decide)).1 (by decide),
    by decide⟩

/-- Splitting does not cut a piece free of the separator. -/
theorem pySplitAux_no_sep (sep : Char) :
    ∀ (cs acc : List Char), (∀ c ∈ cs, c ≠ sep) →
      pySplitAux sep cs acc = [acc.reverse ++ cs] := by
  intro cs
  induction cs with
  | nil =>
    intro acc _
    simp [pySplitAux]
  | cons c rest ih =>
    intro acc h
    have hc : c ≠ sep := h c (List.mem_cons_self _ _)
    simp only [pySplitAux, if_neg hc]
    rw [ih (c :: acc) (fun x hx => h x (List.mem_cons_of_mem _ hx))]
    simp

theorem pySplit_no_sep (sep : Char) (cs : List Char) (h : ∀ c ∈ cs, c ≠ sep) :
    pySplit sep cs = [cs] := by
  unfold pySplit
  rw [pySplitAux_no_sep sep cs [] h]
  rfl

theorem dropWhile_of_forall_not (p : α → Bool) (l : List α) (h : ∀ c ∈ l, p c = false) :
    l.dropWhile p = l := by
  cases l with
  | nil => rfl
  | cons x xs =>
    rw [List.dropWhile_cons]
    simp [h x (List.mem_cons_self _ _)]

/-- Stripping a whitespace-free piece is the identity. -/
theorem pyStrip_of_no_ws (cs : List Char) (h : ∀ c ∈ cs, c.isWhitespace = false) :
    pyStrip cs = cs := by
  unfold pyStrip
  rw [dropWhile_of_forall_not _ cs h]
  rw [dropWhile_of_forall_not _ cs.reverse (fun c hc => h c (List.mem_reverse.mp hc))]
  exact List.reverse_reverse cs

theorem sortItem_plain (c : Char) (rest : List Char) (h1 : c ≠ '-') (h2 : c ≠ '+') :
    sortItem (c :: rest) = (c :: rest) ++ [':', 'a', 's', 'c'] := by
  simp only [sortItem, if_neg h1, if_neg h2]


/-- Splitting cuts exactly at a separator that follows a separator-free
piece. -/
theorem pySplitAux_sep_break (sep : Char) :
    ∀ (p acc rest : List Char), (∀ c ∈ p, c ≠ sep) →
      pySplitAux sep (p ++ sep :: rest) acc =
        (acc.reverse ++ p) :: pySplitAux sep rest [] := by
  intro p
  induction p with
  | nil =>
    intro acc rest _
    simp [pySplitAux]
  | cons c p' ih =>
    intro acc rest h
    have hc : c ≠ sep := h c (List.mem_cons_self _ _)
    show pySplitAux sep (c :: (p' ++ sep :: rest)) acc = _
    simp only [pySplitAux, if_neg hc]
    rw [ih (c :: acc) rest (fun x hx => h x (List.mem_cons_of_mem _ hx))]
    simp

/-- Splitting on the separator undoes joining with it, for separator-free
pieces. -/
theorem pySplit_joinSep (sep : Char) :
    ∀ ps : List (List Char), ps ≠ [] → (∀ p ∈ ps, ∀ c ∈ p, c ≠ sep) →
      pySplit sep (joinSep [sep] ps) = ps := by
  intro ps
  induction ps with
  | nil =>
    intro h _
    exact absurd rfl h
  | cons p rest ih =>
    intro _ h
    cases rest with
    | nil =>
      show pySplit sep (joinSep [sep] [p]) = [p]
      exact pySplit_no_sep sep p (h p (List.mem_cons_self _ _))
    | cons q qs =>
      show pySplit sep (p ++ [sep] ++ joinSep [sep] (q :: qs)) = p :: q :: qs
      rw [List.append_assoc]
      unfold pySplit
      show pySplitAux sep (p ++ sep :: joinSep [sep] (q :: qs)) [] = p :: q :: qs
      rw [pySplitAux_sep_break sep p [] (joinSep [sep] (q :: qs))
        (h p (List.mem_cons_self _ _))]
      show p :: pySplit sep (joinSep [sep] (q :: qs)) = p :: q :: qs
      rw [ih (by simp) (fun x hx => h x (List.mem_cons_of_mem _ hx))]

theorem joinSep_ne_nil (sep : Char) (p : List Char) (rest : List (List Char))
    (hp : p ≠ []) : joinSep [sep] (p :: rest) ≠ [] := by
  cases rest with
  | nil => exact hp
  | cons q qs =>
    show p ++ [sep] ++ joinSep [sep] (q :: qs) ≠ []
    simp

/-- On a non-empty join of comma-free pieces, `apply_sort` maps each
piece through strip and `sortItem`. -/
theorem apply_sort_pieces (ps : List (List Char)) (hne : ps ≠ [])
    (hcomma : ∀ p ∈ ps, ∀ c ∈ p, c ≠ ',')
    (hjoin : joinSep [','] ps ≠ []) :
    apply_sort ⟨joinSep [','] ps⟩ =
      ⟨joinSep [','] (ps.map (fun p => sortItem (pyStrip p)))⟩ := by
  have hne' : (⟨joinSep [','] ps⟩ : String) ≠ "" := by
    intro h
    exact hjoin (congrArg String.data h)
  unfold apply_sort
  rw [if_neg hne']
  show String.mk (joinSep [','] ((pySplit ',' (joinSep [','] ps)).map
    (fun p => sortItem (pyStrip p)))) = _
  rw [pySplit_joinSep ',' ps hne hcomma]

/-- On a comma-free, whitespace-free piece that does not begin with a
sign, `sortItem` after stripping appends `:asc`. -/
theorem sortItem_pyStrip_plain (q : List Char) (hq : q ≠ [])
    (hch : ∀ c ∈ q, c ≠ ',' ∧ c.isWhitespace = false)
    (hplus : q.head? ≠ some '+') (hminus : q.head? ≠ some '-') :
    sortItem (pyStrip q) = q ++ [':', 'a', 's', 'c'] := by
  rw [pyStrip_of_no_ws q (fun c hc => (hch c hc).2)]
  obtain ⟨c, rest, rfl⟩ := List.exists_cons_of_ne_nil hq
  have h1 : c ≠ '-' := by
    intro h
    exact hminus (by rw [h]; rfl)
  have h2 : c ≠ '+' := by
    intro h
    exact hplus (by rw [h]; rfl)
  exact sortItem_plain c rest h1 h2

/-- Appending `:asc` to every piece lengthens the join by four
characters per piece. -/
theorem joinSep_append_asc_length :
    ∀ qs : List (List Char),
      (joinSep [','] (qs.map (fun q => q ++ [':', 'a', 's', 'c']))).length =
        (joinSep [','] qs).length + 4 * qs.length := by
  intro qs
  induction qs with
  | nil => rfl
  | cons q rest ih =>
    cases rest with
    | nil =>
      show (q ++ [':', 'a', 's', 'c']).length = q.length + 4 * ([q] : List (List Char)).length
      simp
    | cons r rs =>
      show ((q ++ [':', 'a', 's', 'c']) ++ [','] ++
          joinSep [','] ((r :: rs).map (fun q => q ++ [':', 'a', 's', 'c']))).length =
        (q ++ [','] ++ joinSep [','] (r :: rs)).length + 4 * (q :: r :: rs).length
      simp only [List.length_append, List.length_cons, List.length_nil]
      rw [ih]
      simp only [List.length_cons, List.length_nil]
      omega

/-- Re-application of `apply_sort` on a join of canonical pairs appends
a further `:asc` to every pair. -/
theorem apply_sort_plain_pieces (qs : List (List Char)) (hne : qs ≠ [])
    (hq : ∀ q ∈ qs, q ≠ [] ∧ (∀ c ∈ q, c ≠ ',' ∧ c.isWhitespace = false) ∧
      q.head? ≠ some '+' ∧ q.head? ≠ some '-') :
    apply_sort ⟨joinSep [','] qs⟩ =
      ⟨joinSep [','] (qs.map (fun q => q ++ [':', 'a', 's', 'c']))⟩ := by
  obtain ⟨q0, rest, rfl⟩ := List.exists_cons_of_ne_nil hne
  have hjoin : joinSep [','] (q0 :: rest) ≠ [] :=
    joinSep_ne_nil ',' q0 rest (hq q0 (List.mem_cons_self _ _)).1
  rw [apply_sort_pieces (q0 :: rest) (List.cons_ne_nil _ _)
    (fun p hp c hc => ((hq p hp).2.1 c hc).1) hjoin]
  refine congrArg String.mk (congrArg (joinSep [',']) ?_)
  apply List.map_congr_left
  intro q hmem
  obtain ⟨hq1, hq2, hq3, hq4⟩ := hq q hmem
  exact sortItem_pyStrip_plain q hq1 hq2 hq3 hq4

/-- The re-application differs from its input: it is strictly longer. -/
theorem apply_sort_plain_pieces_ne (qs : List (List Char)) (hne : qs ≠ [])
    (hq : ∀ q ∈ qs, q ≠ [] ∧ (∀ c ∈ q, c ≠ ',' ∧ c.isWhitespace = false) ∧
      q.head? ≠ some '+' ∧ q.head? ≠ some '-') :
    apply_sort ⟨joinSep [','] qs⟩ ≠ ⟨joinSep [','] qs⟩ := by
  rw [apply_sort_plain_pieces qs hne hq]
  intro h
  have hdata : joinSep [','] (qs.map (fun q => q ++ [':', 'a', 's', 'c'])) =
      joinSep [','] qs := congrArg String.data h
  have hlen := congrArg List.length hdata
  rw [joinSep_append_asc_length qs] at hlen
  have hqpos : 0 < qs.length := List.length_pos.mpr hne
  omega

theorem renderSortItem_ne_nil (it : Option Bool × List Char) (h : it.2 ≠ []) :
    renderSortItem it ≠ [] := by
  obtain ⟨sgn, name⟩ := it
  cases sgn with
  | none => exact h
  | some b => cases b <;> exact List.cons_ne_nil _ _

theorem renderSortItem_comma_free (it : Option Bool × List Char)
    (h : ∀ c ∈ it.2, c ≠ ',' ∧ c ≠ '+' ∧ c ≠ '-' ∧ c.isWhitespace = false) :
    ∀ c ∈ renderSortItem it, c ≠ ',' := by
  obtain ⟨sgn, name⟩ := it
  cases sgn with
  | none => exact fun c hc => (h c hc).1
  | some b =>
    cases b with
    | false =>
      intro c hc
      rcases List.mem_cons.mp hc with rfl | hc
      · decide
      · exact (h c hc).1
    | true =>
      intro c hc
      rcases List.mem_cons.mp hc with rfl | hc
      · decide
      · exact (h c hc).1

/-- Stripping and `sortItem` turn a rendered sort item into its
canonical pair. -/
theorem sortItem_render (sgn : Option Bool) (name : List Char) (hn : name ≠ [])
    (hch : ∀ c ∈ name, c ≠ ',' ∧ c ≠ '+' ∧ c ≠ '-' ∧ c.isWhitespace = false) :
    sortItem (pyStrip (renderSortItem (sgn, name))) = canonSortPair (sgn, name) := by
  have hwsn : ∀ c ∈ name, c.isWhitespace = false := fun c hc => (hch c hc).2.2.2
  cases sgn with
  | none =>
    show sortItem (pyStrip name) = canonSortPair (none, name)
    rw [pyStrip_of_no_ws name hwsn]
    obtain ⟨c, rest, rfl⟩ := List.exists_cons_of_ne_nil hn
    rw [sortItem_plain c rest (hch c (List.mem_cons_self _ _)).2.2.1
      (hch c (List.mem_cons_self _ _)).2.1]
    rfl
  | some b =>
    cases b with
    | false =>
      have hws : ∀ c ∈ ('+' :: name), c.isWhitespace = false := by
        intro c hc
        rcases List.mem_cons.mp hc with rfl | hc
        · decide
        · exact hwsn c hc
      show sortItem (pyStrip ('+' :: name)) = canonSortPair (some false, name)
      rw [pyStrip_of_no_ws ('+' :: name) hws]
      rfl
    | true =>
      have hws : ∀ c ∈ ('-' :: name), c.isWhitespace = false := by
        intro c hc
        rcases List.mem_cons.mp hc with rfl | hc
        · decide
        · exact hwsn c hc
      show sortItem (pyStrip ('-' :: name)) = canonSortPair (some true, name)
      rw [pyStrip_of_no_ws ('-' :: name) hws]
      rfl

/-- A canonical pair is a plain piece: non-empty, comma-free,
whitespace-free, and not beginning with a sign. -/
theorem canonSortPair_plain (sgn : Option Bool) (name : List Char) (hn : name ≠ [])
    (hch : ∀ c ∈ name, c ≠ ',' ∧ c ≠ '+' ∧ c ≠ '-' ∧ c.isWhitespace = false) :
    canonSortPair (sgn, name) ≠ [] ∧
    (∀ c ∈ canonSortPair (sgn, name), c ≠ ',' ∧ c.isWhitespace = false) ∧
    (canonSortPair (sgn, name)).head? ≠ some '+' ∧
    (canonSortPair (sgn, name)).head? ≠ some '-' := by
  obtain ⟨c0, rest, rfl⟩ := List.exists_cons_of_ne_nil hn
  unfold canonSortPair
  refine ⟨by simp, ?_, ?_, ?_⟩
  · intro c hc
    rcases List.mem_append.mp hc with hc | hc
    · exact ⟨(hch c hc).1, (hch c hc).2.2.2⟩
    · have hsuffix : c ∈ [':', 'd', 'e', 's', 'c'] ∨ c ∈ [':', 'a', 's', 'c'] := by
        by_cases hb : sgn = some true
        · rw [if_pos hb] at hc
          exact Or.inl hc
        · rw [if_neg hb] at hc
          exact Or.inr hc
      rcases hsuffix with hc | hc
      · simp only [List.mem_cons, List.not_mem_nil, or_false] at hc
        rcases hc with rfl | rfl | rfl | rfl | rfl <;> exact ⟨by decide, by decide⟩
      · simp only [List.mem_cons, List.not_mem_nil, or_false] at hc
        rcases hc with rfl | rfl | rfl | rfl <;> exact ⟨by decide, by decide⟩
  · show ((c0 :: rest) ++ _).head? ≠ some '+'
    rw [List.cons_append]
    intro h
    exact (hch c0 (List.mem_cons_self _ _)).2.1 (Option.some.inj h)
  · show ((c0 :: rest) ++ _).head? ≠ some '-'
    rw [List.cons_append]
    intro h
    exact (hch c0 (List.mem_cons_self _ _)).2.2.1 (Option.some.inj h)

/-- C9 counterexample: `apply_sort` is not idempotent on its canonical
output — re-applying it to `foo:asc` (the canonical form of `foo`)
appends another `:asc` rather than leaving it unchanged. -/
theorem C9_apply_sort_counterexample :
    apply_sort "foo" = "foo:asc" ∧
    apply_sort (apply_sort "foo") = "foo:asc:asc" ∧
    apply_sort (apply_sort "foo") ≠ apply_sort "foo" :=
  ⟨by decide, by decide, by decide⟩

/-- C9 (amended): `apply_sort` is not idempotent on its canonical
output. The empty spec is a fixed point. For any non-empty
comma-separated sequence of canonical pairs — pieces that are
non-empty, comma-free, whitespace-free and do not begin with a sign,
which covers `field:asc` and `field:desc` alike — `apply_sort` appends
a further `:asc` to every piece (the existing `:asc`/`:desc` suffix is
parsed as part of the field name) and so never returns its input.
Consequently, for every sort spec rendered from one or more optionally
`+`/`-`-prefixed field names (names non-empty and free of commas,
signs and whitespace), the canonical output is the `field:asc|desc`
pairs in input order, and applying `apply_sort` twice appends `:asc`
to every pair instead of reproducing the canonical output. -/
theorem C9_apply_sort_amended :
    apply_sort (apply_sort "") = apply_sort "" ∧
    (∀ qs : List (List Char), qs ≠ [] →
      (∀ q ∈ qs, q ≠ [] ∧ (∀ c ∈ q, c ≠ ',' ∧ c.isWhitespace = false) ∧
        q.head? ≠ some '+' ∧ q.head? ≠ some '-') →
      apply_sort ⟨joinSep [','] qs⟩ =
        ⟨joinSep [','] (qs.map (fun q => q ++ [':', 'a', 's', 'c']))⟩ ∧
      apply_sort ⟨joinSep [','] qs⟩ ≠ ⟨joinSep [','] qs⟩) ∧
    (∀ items : List (Option Bool × List Char), items ≠ [] →
      (∀ it ∈ items, it.2 ≠ [] ∧
        ∀ c ∈ it.2, c ≠ ',' ∧ c ≠ '+' ∧ c ≠ '-' ∧ c.isWhitespace = false) →
      apply_sort ⟨joinSep [','] (items.map renderSortItem)⟩ =
        ⟨joinSep [','] (items.map canonSortPair)⟩ ∧
      apply_sort (apply_sort ⟨joinSep [','] (items.map renderSortItem)⟩) =
        ⟨joinSep [','] (items.map (fun it => canonSortPair it ++ [':', 'a', 's', 'c']))⟩ ∧
      apply_sort (apply_sort ⟨joinSep [','] (items.map renderSortItem)⟩) ≠
        apply_sort ⟨joinSep [','] (items.map renderSortItem)⟩) := by
  refine ⟨rfl, ?_, ?_⟩
  · intro qs hne hq
    exact ⟨apply_sort_plain_pieces qs hne hq, apply_sort_plain_pieces_ne qs hne hq⟩
  · intro items hne hitems
    have hfst : apply_sort ⟨joinSep [','] (items.map renderSortItem)⟩ =
        ⟨joinSep [','] (items.map canonSortPair)⟩ := by
      obtain ⟨it0, rest, rfl⟩ := List.exists_cons_of_ne_nil hne
      have hr0 : renderSortItem it0 ≠ [] :=
        renderSortItem_ne_nil it0 (hitems it0 (List.mem_cons_self _ _)).1
      have hjoin : joinSep [','] ((it0 :: rest).map renderSortItem) ≠ [] := by
        show joinSep [','] (renderSortItem it0 :: rest.map renderSortItem) ≠ []
        exact joinSep_ne_nil ',' _ _ hr0
      have hcomma : ∀ p ∈ (it0 :: rest).map renderSortItem, ∀ c ∈ p, c ≠ ',' := by
        intro p hp
        obtain ⟨it, hit, rfl⟩ := List.mem_map.mp hp
        exact renderSortItem_comma_free it (fun c hc => (hitems it hit).2 c hc)
      rw [apply_sort_pieces ((it0 :: rest).map renderSortItem) (by simp) hcomma hjoin]
      refine congrArg String.mk (congrArg (joinSep [',']) ?_)
      rw [List.map_map]
      apply List.map_congr_left
      intro it hit
      obtain ⟨sgn, name⟩ := it
      exact sortItem_render sgn name (hitems (sgn, name) hit).1
        (fun c hc => (hitems (sgn, name) hit).2 c hc)
    have hcanon_plain : ∀ q ∈ items.map canonSortPair,
        q ≠ [] ∧ (∀ c ∈ q, c ≠ ',' ∧ c.isWhitespace = false) ∧
        q.head? ≠ some '+' ∧ q.head? ≠ some '-' := by
      intro q hmem
      obtain ⟨it, hit, rfl⟩ := List.mem_map.mp hmem
      obtain ⟨sgn, name⟩ := it
      exact canonSortPair_plain sgn name (hitems (sgn, name) hit).1
        (fun c hc => (hitems (sgn, name) hit).2 c hc)
    have hmapne : items.map canonSortPair ≠ [] := by
      simpa using hne
    refine ⟨hfst, ?_, ?_⟩
    · rw [hfst, apply_sort_plain_pieces (items.map canonSortPair) hmapne hcanon_plain,
        List.map_map]
      rfl
    · rw [hfst]
      exact apply_sort_plain_pieces_ne (items.map canonSortPair) hmapne hcanon_plain

/-- Witness for C9 (amended): the two-field spec `foo,-bar`, mixing an
unprefixed ascending name with a minus-prefixed descending one. -/
theorem C9_apply_sort_amended_witness :
    ([((none : Option Bool), ['f', 'o', 'o']), (some true, ['b', 'a', 'r'])] :
      List (Option Bool × List Char)) ≠ [] ∧
    (⟨joinSep [','] ([((none : Option Bool), ['f', 'o', 'o']),
        (some true, ['b', 'a', 'r'])].map renderSortItem)⟩ : String) = "foo,-bar" ∧
    apply_sort "foo,-bar" = "foo:asc,bar:desc" ∧
    apply_sort (apply_sort "foo,-bar") = "foo:asc:asc,bar:desc:asc" ∧
    apply_sort (apply_sort ⟨joinSep [','] ([((none : Option Bool), ['f', 'o', 'o']),
        (some true, ['b', 'a', 'r'])].map renderSortItem)⟩) ≠
      apply_sort ⟨joinSep [','] ([((none : Option Bool), ['f', 'o', 'o']),
        (some true, ['b', 'a', 'r'])].map renderSortItem)⟩ :=
  ⟨by decide, by decide, by decide, by decide,
    (C9_apply_sort_amended.2.2
      [((none : Option Bool), ['f', 'o', 'o']), (some true, ['b', 'a', 'r'])]
      (by decide) (by decide)).2.2⟩

end Nefertari
